import Mathlib

/-!
Verification development for the CIR source-to-source compiler
(lexer `tokenize.js`, indentation parser `tree-parse.js`, C code
generator `skeletonize.js` / `CSkeletonizer`).

The JavaScript sources are shallowly embedded: JS numbers used as
indices/counters become `Nat`, JS strings become `String` (the inputs of
interest are ASCII, where JS UTF-16 length agrees with `String.length`),
JS exceptions (`assert`, `TypeError` on reading a property of
`undefined`) become `Except String`, and the mutable parser/generator
instances become explicit state records threaded in a state monad.
-/

namespace CIR

/-- `TokenTypes` of tokenize.js: the closed enumeration of lexical classes. -/
inductive TokenType where
  | Word
  | Colon
  | LineBreak
  | Spaces
  | OpenParen
  | CloseParen
  | Comma
  | SetEquals
  | Keyword
  | Number
  | Comment
  | Operator
  | ReturnTypeIndicator
deriving DecidableEq

/-- `Token` of tokenize.js: a lexical class together with the raw matched text. -/
structure Token where
  type : TokenType
  raw : String
deriving DecidableEq

/-- `KEYWORD_LIST` of tokenize.js, in source order (the order of regex
alternation, which resolves overlaps such as ELSE/ELSEIF). -/
def KEYWORD_LIST : List String :=
  ["STRUCTURE", "METHOD", "REPEAT", "TIMES", "SETMODE", "DEFAULT", "DEFINE",
   "CHOOSE", "FOR", "TO", "PASS", "RETURN", "IF", "WHILE", "ELSE", "ELSEIF",
   "ELSIF", "ELIF", "MUTABLE"]

/-- JS regex word character (`\w`, the class relevant to the `\b` boundary
in `KeywordRegex`): letters, digits, underscore. -/
def isWordChar (c : Char) : Bool :=
  (('A' ≤ c ∧ c ≤ 'Z') ∨ ('a' ≤ c ∧ c ≤ 'z') ∨ ('0' ≤ c ∧ c ≤ '9') ∨ c = '_' : Prop)

/-- First character of a JS identifier per the `Word` regex `[A-Za-z_]`. -/
def isWordStart (c : Char) : Bool :=
  (('A' ≤ c ∧ c ≤ 'Z') ∨ ('a' ≤ c ∧ c ≤ 'z') ∨ c = '_' : Prop)

def isDigit (c : Char) : Bool := ('0' ≤ c ∧ c ≤ '9' : Prop)

def isSpaceTab (c : Char) : Bool := c = ' ' ∨ c = '\t'

def isCRLF (c : Char) : Bool := c = '\r' ∨ c = '\n'

/-- Single-character alternatives of the `Operator` regex class
`[-+*\/!~^|&]`. -/
def isOpChar (c : Char) : Bool :=
  c = '-' ∨ c = '+' ∨ c = '*' ∨ c = '/' ∨ c = '!' ∨ c = '~' ∨ c = '^' ∨
    c = '|' ∨ c = '&'

/-- Length of the greedy run of characters satisfying `p` at the head of `s`
(the `+` quantifier of a character class is greedy). -/
def runLength (p : Char → Bool) : List Char → Nat
  | [] => 0
  | c :: cs => if p c then runLength p cs + 1 else 0

/-- Does the keyword `kw` match at the head of `s` under the trailing `\b`
boundary of `KeywordRegex` (next character, if any, is not a word char)? -/
def keywordMatchesAt (kw : String) (s : List Char) : Bool :=
  decide (kw.data <+: s) &&
    match s.drop kw.data.length with
    | [] => true
    | c :: _ => !isWordChar c

/-- `KeywordRegex` of tokenize.js: first alternative of `KEYWORD_LIST`, in
order, that matches with the `\b` boundary.  NOTE: the regex is built
WITHOUT the `/i` flag (the comment above it in the source reads
"add /i flag to allow mixed case keywords" but the flag is absent), so
matching is case-sensitive. Returns the match length. -/
def matchKeyword (s : List Char) : Option Nat :=
  (KEYWORD_LIST.find? (fun kw => keywordMatchesAt kw s)).map (·.data.length)

/-- The `Comment` regex `^(?:\/\/)[\s\S]*?(?:\n|$)`: a lazy body, so the
match extends to (and includes) the first newline, or to the end of the
input when there is none. Returns the match length. -/
def matchComment (s : List Char) : Option Nat :=
  match s with
  | '/' :: '/' :: rest =>
    if '\n' ∈ rest then some (2 + rest.indexOf '\n' + 1) else some (2 + rest.length)
  | _ => none

/-- A character-class-run regex such as `^[ \t]+`: matches when the run is
nonempty. Returns the match length. -/
def matchRun (p : Char → Bool) (s : List Char) : Option Nat :=
  match runLength p s with
  | 0 => none
  | n + 1 => some (n + 1)

/-- The `Word` regex `^[A-Za-z_][A-Za-z0-9_]*`. Returns the match length. -/
def matchWord (s : List Char) : Option Nat :=
  match s with
  | [] => none
  | c :: cs => if isWordStart c then some (runLength isWordChar cs + 1) else none

/-- The `ReturnTypeIndicator` regex `^(?:->|→)`. Returns the match length. -/
def matchRTI (s : List Char) : Option Nat :=
  match s with
  | '-' :: '>' :: _ => some 2
  | '→' :: _ => some 1
  | _ => none

/-- The `Operator` regex `^(?:[-+*\/!~^|&]|or|and|is)`: a single operator
character, or one of the literal spellings `or`, `and`, `is` (tried in
that order; no trailing boundary). Returns the match length. -/
def matchOperator (s : List Char) : Option Nat :=
  match s with
  | c :: _ =>
    if isOpChar c then some 1
    else if s.take 2 = ['o', 'r'] then some 2
    else if s.take 3 = ['a', 'n', 'd'] then some 3
    else if s.take 2 = ['i', 's'] then some 2
    else none
  | [] => none

/-- A single literal character regex such as `^:`. Returns the match length. -/
def matchChar (c : Char) (s : List Char) : Option Nat :=
  match s with
  | c' :: _ => if c' = c then some 1 else none
  | [] => none

/-- `TokenRegexes` of tokenize.js: the ordered pattern table. Returns the
first pattern that matches at the head of `s`, as (length, token type). -/
def firstMatch (s : List Char) : Option (Nat × TokenType) :=
  match matchKeyword s with
  | some n => some (n, .Keyword)
  | none =>
  match matchComment s with
  | some n => some (n, .Comment)
  | none =>
  match matchRun isSpaceTab s with
  | some n => some (n, .Spaces)
  | none =>
  match matchChar ':' s with
  | some n => some (n, .Colon)
  | none =>
  match matchRTI s with
  | some n => some (n, .ReturnTypeIndicator)
  | none =>
  match matchWord s with
  | some n => some (n, .Word)
  | none =>
  match matchRun isDigit s with
  | some n => some (n, .Number)
  | none =>
  match matchRun isCRLF s with
  | some n => some (n, .LineBreak)
  | none =>
  match matchOperator s with
  | some n => some (n, .Operator)
  | none =>
  match matchChar '(' s with
  | some n => some (n, .OpenParen)
  | none =>
  match matchChar ')' s with
  | some n => some (n, .CloseParen)
  | none =>
  match matchChar ',' s with
  | some n => some (n, .Comma)
  | none =>
  match matchChar '=' s with
  | some n => some (n, .SetEquals)
  | none => none

/-- The loop of `tokenize` of tokenize.js.  Each step matches the first
applicable pattern at the current position, consumes it, and emits a
token; an unmatched position raises `Unknown character`, and a `Spaces`
token containing both a space and a tab raises `Cannot mix tabs and
spaces`.  Every pattern consumes at least one character, so `fuel`
bounded by the input length below never runs out (and a zero-length
match, which would make the JS loop spin forever, also stops the
recursion as an error). -/
def tokenizeF : Nat → List Char → Except String (List Token)
  | 0, _ => .error "out of fuel"
  | _ + 1, [] => .ok []
  | fuel + 1, c :: cs =>
    match firstMatch (c :: cs) with
    | none => .error ("Unknown character: '" ++ String.mk [c] ++ "'")
    | some (k, ty) =>
      if k = 0 then .error "zero-length match (unreachable: JS would loop forever)"
      else
        let raw : List Char := (c :: cs).take k
        if ty = .Spaces ∧ ' ' ∈ raw ∧ '\t' ∈ raw then
          .error "Cannot mix tabs and spaces"
        else
          (tokenizeF fuel ((c :: cs).drop k)).map (fun ts => ⟨ty, ⟨raw⟩⟩ :: ts)

/-- `tokenize` of tokenize.js. -/
def tokenize (s : List Char) : Except String (List Token) :=
  tokenizeF (s.length + 1) s

/-- `tokenize` applied to a source string. -/
def tokenizeStr (s : String) : Except String (List Token) := tokenize s.data

/-! ## The indentation parser (tree-parse.js, `TreeParser`) -/

/-- `WordTypes` of tree-parse.js (`Type` is a Lean keyword, hence the
constructor names `typeWord`/`methodWord`). -/
inductive WordType where
  | typeWord
  | methodWord
deriving DecidableEq

/-- The syntax tree of tree-parse.js.  A JS `TreeNode` is
`{type, value, children}`; every construction site `addNewNode(type,
value, children)` pairs one `TreeNodeTypes` tag with one payload shape,
so tag and payload are fused into one constructor here.  Only
`Structure`, `MethodDeclaration` and `Repeat` nodes are ever built with a
nonempty `children` argument; the other tags always carry the default
`[]` and their constructors omit the field.

`returnNode` corresponds to `TreeNodeTypes.Return`, which the code
generator (`CSkeletonizer`, src/unnamed/part_002) dispatches on but which
is absent from the `tree-parse.js` present under src/; see `parseReturn`.

`undef` models the JS value `undefined` appearing in a `children` array
(e.g. `nodes.pop()` on an empty array in `parseStructure`). -/
inductive TreeNode where
  | comment (text : String)
  | declaration (dtype : String) (declared : List Token) (mutableFlag : Bool)
  | assignment (varName : String) (expression : List Token)
  | structureNode (name : String) (children : List TreeNode)
  | methodDeclaration (name : String) (parameters : List Token)
      (returnType : Option String) (children : List TreeNode)
  | methodCall (method : Token) (parameters : List Token)
  | passNode
  | defaultDefine (name : String) (defaultValue : String)
  | defineNode (name : String) (value : String)
  | setMode (name : String) (modes : List Token)
  | repeatNode (condition : List Token) (children : List TreeNode)
  | returnNode (expression : List Token)
  | undef

/-- Association-list lookup for the JS object maps (string keys; own
properties only — no use in the source distinguishes an inherited
property from an absent one in a way that changes control flow for the
identifiers that can actually reach these maps). -/
def alookup (k : String) : List (String × α) → Option α
  | [] => none
  | (k', v) :: rest => if k' = k then some v else alookup k rest

/-- JS `obj[k] = v`: overwrite in place when the key exists (JS objects
keep first-insertion order), append otherwise. -/
def aupdate (k : String) (v : α) : List (String × α) → List (String × α)
  | [] => [(k, v)]
  | (k', v') :: rest =>
    if k' = k then (k, v) :: rest else (k', v') :: aupdate k v rest

/-- The mutable fields of a `TreeParser` instance (constructor of
tree-parse.js): cursor, token array, indentation context, type-name
registry, declared-variable table, last lookahead match, accumulated
nodes. -/
structure PState where
  tokenIndex : Nat
  tokens : List Token
  indentLevel : Nat
  indentDelta : Nat
  typeContext : List (String × WordType)
  variableTypes : List (String × String)
  matched : Option Nat
  nodes : List TreeNode

/-- The parser's effect: mutable `TreeParser` state plus thrown JS
errors (`AssertionError` from `assert`, `TypeError` from property access
on `undefined`). -/
abbrev PM (α : Type) := StateT PState (Except String) α

/-- The message standing for a JS `TypeError` raised by reading a
property of `undefined`/`null`. -/
def typeErrorMsg : String := "TypeError: cannot read property of undefined"

/-- `assert(expression, message)` of util.js: throws unless truthy. -/
def jsAssert (b : Bool) (msg : String) : PM Unit :=
  if b then pure () else throw msg

/-- JS `String.prototype.toUpperCase()` for the ASCII range (the inputs
here are ASCII; `Char.toUpper` is exactly the ASCII upcasing). -/
def jsToUpperCase (s : String) : String := ⟨s.data.map Char.toUpper⟩

/-- A character JS `String.prototype.trim()` removes (the whitespace
characters that can occur in this pipeline's strings). -/
def jsWhitespace (c : Char) : Bool := c = ' ' ∨ c = '\t' ∨ c = '\n' ∨ c = '\r'

/-- JS `String.prototype.trim()`: strip leading and trailing
whitespace. -/
def jsTrim (s : String) : String :=
  ⟨((s.data.dropWhile jsWhitespace).reverse.dropWhile jsWhitespace).reverse⟩

/-- `TokenTypes.X.toString()` without the `Symbol(...)` wrapper, for
`Token.dump`. -/
def TokenType.symName : TokenType → String
  | .Word => "TokenTypes.Word"
  | .Colon => "TokenTypes.Colon"
  | .LineBreak => "TokenTypes.LineBreak"
  | .Spaces => "TokenTypes.Spaces"
  | .OpenParen => "TokenTypes.OpenParen"
  | .CloseParen => "TokenTypes.CloseParen"
  | .Comma => "TokenTypes.Comma"
  | .SetEquals => "TokenTypes.SetEquals"
  | .Keyword => "TokenTypes.Keyword"
  | .Number => "TokenTypes.Number"
  | .Comment => "TokenTypes.Comment"
  | .Operator => "TokenTypes.Operator"
  | .ReturnTypeIndicator => "TokenTypes.ReturnTypeIndicator"

/-- `Token.dump()` of tokenize.js (JSON string escaping of the raw text is
elided; no control flow depends on the dump text). -/
def Token.dump (t : Token) : String :=
  "Token(type: Symbol(" ++ t.type.symName ++ "), raw: \"" ++ t.raw ++ "\")"

/-- `getTokenOffset(i)`: `this.tokens[this.tokenIndex + i]`, which is
`undefined` past the end. -/
def getToken? (i : Nat) : PM (Option Token) := do
  let s ← get
  pure s.tokens[s.tokenIndex + i]?

/-- Reading a property of `getTokenOffset(i)`: a JS `TypeError` when the
index is out of range. -/
def tokAt (i : Nat) : PM Token := do
  match ← getToken? i with
  | none => throw typeErrorMsg
  | some t => pure t

/-- `hasTokensLeft()`. -/
def hasTokensLeft : PM Bool := do
  let s ← get
  pure (decide (s.tokenIndex < s.tokens.length))

/-- `addNode` / `addNewNode`: push onto `this.nodes`. -/
def addNode (n : TreeNode) : PM Unit :=
  modify fun s => { s with nodes := s.nodes ++ [n] }

/-- `hasAhead(option)`: the next token exists and has the given type;
records `matched = {size: 1}` on success. -/
def hasAhead (ty : TokenType) : PM Bool := do
  if !(← hasTokensLeft) then
    pure false
  else
    let t ← tokAt 0
    if t.type = ty then do
      modify fun s => { s with matched := some 1 }
      pure true
    else
      pure false

/-- The JS loop `while(tokens[k].type === Spaces) k++` starting at the
head of a token-list suffix: counts the leading `Spaces` tokens, but
crashes (reads `.type` of `undefined`) when it runs off the end. -/
def countSpacesStrict : List Token → Except String Nat
  | [] => .error typeErrorMsg
  | t :: ts =>
    if t.type = .Spaces then (countSpacesStrict ts).map (· + 1) else .ok 0

/-- Skip `Spaces` tokens starting at relative offset `j` (the
space-skipping loops of `hasSequenceAhead`); crashes past the end like
the JS loop it embeds. -/
def skipSpacesFrom (j : Nat) : PM Nat := do
  let s ← get
  match countSpacesStrict (s.tokens.drop (s.tokenIndex + j)) with
  | .error e => throw e
  | .ok n => pure (j + n)

/-- The `for` loop of `hasSequenceAhead`: walk the pattern, skipping
spaces before each element while `tokenIndex + j` stays in range; `none`
models the early `return false` on a type mismatch, `some j` models
falling through to the code after the loop (which also happens when the
loop exits because `tokenIndex + j` reached the end with pattern elements
left). -/
def seqLoop (ignoreSpaces : Bool) : List TokenType → Nat → PM (Option Nat)
  | [], j => pure (some j)
  | p :: ps, j => do
    let s ← get
    if s.tokenIndex + j < s.tokens.length then do
      let j ← if ignoreSpaces then skipSpacesFrom j else pure j
      let t ← tokAt j
      if t.type = p then seqLoop ignoreSpaces ps (j + 1) else pure none
    else
      pure (some j)

/-- `hasSequenceAhead(toMatch, ignoreSpaces)` of tree-parse.js.  Note the
initial guard `toMatch.length + this.tokenIndex >= this.tokens.length`
returns `false` outright — including when the pattern would fit exactly
into the remaining tokens. -/
def hasSequenceAhead (toMatch : List TokenType) (ignoreSpaces : Bool := true) :
    PM Bool := do
  let s ← get
  if s.tokens.length ≤ toMatch.length + s.tokenIndex then
    pure false
  else do
    match ← seqLoop ignoreSpaces toMatch 0 with
    | none => pure false
    | some j => do
      let j ← if ignoreSpaces then skipSpacesFrom j else pure j
      modify fun st => { st with matched := some j }
      pure true

/-- `hasOptionAhead(options)`. -/
def hasOptionAhead : List TokenType → PM Bool
  | [] => pure false
  | o :: os => do
    if ← hasAhead o then pure true else hasOptionAhead os

/-- `skipMatched()`: advance by `this.matched.size` (a `TypeError` when
`matched` is still `null`). -/
def skipMatched : PM Unit := do
  match (← get).matched with
  | none => throw typeErrorMsg
  | some k => modify fun s => { s with tokenIndex := s.tokenIndex + k }

/-- `findTokenFromOffset(offset, type)`: first token of the given type in
`tokens.slice(tokenIndex + offset)` (or `undefined`). -/
def findTokenFromOffset (offset : Nat) (ty : TokenType) : PM (Option Token) := do
  let s ← get
  pure ((s.tokens.drop (s.tokenIndex + offset)).find? (fun t => t.type = ty))

/-- `.raw` of a possibly-`undefined` token. -/
def rawOf : Option Token → PM String
  | none => throw typeErrorMsg
  | some t => pure t.raw

/-- The do/while of `getTokenOffsetNoSpaces`: first token of a suffix
that is not `Spaces`; reads `.type` of `undefined` when it runs off the
end. -/
def firstNonSpace : List Token → Except String Token
  | [] => .error typeErrorMsg
  | t :: ts => if t.type = .Spaces then firstNonSpace ts else .ok t

/-- `getTokenOffsetNoSpaces(i)` of tree-parse.js. -/
def getTokenOffsetNoSpaces (i : Nat) : PM Token := do
  let s ← get
  match firstNonSpace (s.tokens.drop (s.tokenIndex + i)) with
  | .error e => throw e
  | .ok t => pure t

/-- `parseInitialWhitespace()` of tree-parse.js (lines 142–170).  Returns
`(previous, next, oldIndex)`.

When a `Spaces` run is ahead: if the CURRENT `indent.level` is `0` the
run re-establishes `indent.delta` to the run length and the level becomes
`1`; otherwise the run length must be a nonzero multiple of the current
`indent.delta` (in JS, `spaceCount % 0` is `NaN`, so a zero delta always
fails the `=== 0` comparison, hence the explicit `≠ 0` conjunct), and the
level becomes `length / delta`.  With no run ahead the level becomes `0`.
-/
def parseInitialWhitespace : PM (Nat × Nat × Nat) := do
  let oldIndex := (← get).tokenIndex
  let spaceLevel ←
    if ← hasAhead .Spaces then do
      let spaces := (← tokAt 0).raw
      let spaceCount := spaces.length
      let s ← get
      let lvl ←
        if s.indentLevel = 0 then do
          modify fun st => { st with indentDelta := spaceCount }
          pure 1
        else do
          jsAssert (decide (s.indentDelta ≠ 0 ∧ spaceCount % s.indentDelta = 0))
            ("Improper indentation: Expected a multiple of " ++
              toString s.indentDelta ++ " space(s).")
          pure (spaceCount / s.indentDelta)
      modify fun st => { st with tokenIndex := st.tokenIndex + 1 }
      pure lvl
    else
      pure 0
  let previous := (← get).indentLevel
  modify fun st => { st with indentLevel := spaceLevel }
  pure (previous, spaceLevel, oldIndex)

/-- The `while(this.hasAhead(LineBreak)) this.parseLineBreak();` prologue
of `parseStep`. -/
def skipLineBreaks : Nat → PM Unit
  | 0 => throw "out of fuel"
  | fuel + 1 => do
    if ← hasAhead .LineBreak then do
      modify fun s => { s with tokenIndex := s.tokenIndex + 1 }
      skipLineBreaks fuel
    else
      pure ()

/-- The token-collection loop shared by `parseAssignmentExpression` (and
the spec-modelled `parseReturn`): every token up to, but excluding, the
next line break or the end of input; the cursor stops on the line
break. -/
def collectToLineBreak : Nat → PM (List Token)
  | 0 => throw "out of fuel"
  | fuel + 1 => do
    if !(← hasTokensLeft) then
      pure []
    else
      let t ← tokAt 0
      if t.type = .LineBreak then
        pure []
      else do
        modify fun s => { s with tokenIndex := s.tokenIndex + 1 }
        (t :: ·) <$> collectToLineBreak fuel

/-- `parseAssignmentExpression(word)`. -/
def parseAssignmentExpression (fuel : Nat) (word : Token) : PM Unit := do
  let expression ← collectToLineBreak fuel
  addNode (.assignment word.raw expression)

/-- `parseParameterized()`: flat `(a, b, c)` list collection; `Word` and
`Number` tokens are kept, commas and spaces skipped, anything else is a
fatal `Unexpected token`, and hitting the end before `)` is the fatal
runaway error (whose message contains a literal `${type}` — the source
uses a non-template string there). -/
def parseParameterized : Nat → PM (List Token)
  | 0 => throw "out of fuel"
  | fuel + 1 => do
    if ← hasAhead .CloseParen then do
      modify fun s => { s with tokenIndex := s.tokenIndex + 1 }
      pure []
    else do
      jsAssert (← hasTokensLeft) "Runaway variable declaration for $\x7btype\x7d"
      if ← hasOptionAhead [.Word, .Number] then do
        let t ← tokAt 0
        modify fun s => { s with tokenIndex := s.tokenIndex + 1 }
        (t :: ·) <$> parseParameterized fuel
      else if ← hasOptionAhead [.Comma, .Spaces] then do
        modify fun s => { s with tokenIndex := s.tokenIndex + 1 }
        parseParameterized fuel
      else do
        let t ← tokAt 0
        throw ("Unexpected token: " ++ t.dump)

/-- `parseTypeDeclaration(word)`: the `Array` case skips the
`variableTypes` registration, every other type records each declared
name. -/
def parseTypeDeclaration (fuel : Nat) (word : Token) : PM Unit := do
  let declared ← parseParameterized fuel
  let dtype := word.raw
  jsAssert (decide (0 < declared.length))
    ("Expected 1 or more variables for " ++ dtype ++ " variable declaration.")
  if dtype = "Array" then
    pure ()
  else
    modify fun s =>
      { s with
        variableTypes :=
          declared.foldl (fun m t => aupdate t.raw dtype m) s.variableTypes }
  addNode (.declaration dtype declared false)

/-- `parseMethodEvaluation(word)`. -/
def parseMethodEvaluation (fuel : Nat) (word : Token) : PM Unit := do
  let parameters ← parseParameterized fuel
  addNode (.methodCall word parameters)

/-- `parseHeadExpression()` of tree-parse.js (lines 311–336): a `Word`
followed by `(` is a type declaration when `typeContext[word.raw]` is
`WordTypes.Type` and a method call otherwise; a `Word` followed by `=` is
an assignment; anything else reports failure. -/
def parseHeadExpression (fuel : Nat) : PM Bool := do
  if ← hasSequenceAhead [.Word, .OpenParen] then do
    let word ← tokAt 0
    let wordType := alookup word.raw (← get).typeContext
    skipMatched
    if wordType = some .typeWord then
      parseTypeDeclaration fuel word
    else
      parseMethodEvaluation fuel word
    pure true
  else if ← hasSequenceAhead [.Word, .SetEquals] then do
    let word ← tokAt 0
    skipMatched
    parseAssignmentExpression fuel word
    pure true
  else
    pure false

/-- `parseMutable()`: after the MUTABLE keyword a head expression must
follow and must have produced a `Declaration` node, whose `mutable` flag
is then set in place. -/
def parseMutable (fuel : Nat) : PM Unit := do
  jsAssert (← hasSequenceAhead [.Keyword]) "Assertion failed"
  skipMatched
  jsAssert (← parseHeadExpression fuel) "Declaration must follow MUTABLE"
  match (← get).nodes.getLast? with
  | none => throw typeErrorMsg
  | some n =>
    match n with
    | .declaration dtype declared _ =>
      modify fun s =>
        { s with nodes := s.nodes.dropLast ++ [TreeNode.declaration dtype declared true] }
    | _ => throw "Declaration must follow MUTABLE"

/-- `parseComment()`. -/
def parseComment : PM Unit := do
  let t ← tokAt 0
  addNode (.comment t.raw)
  modify fun s => { s with tokenIndex := s.tokenIndex + 1 }

/-- `parsePass()`. -/
def parsePass : PM Unit := do
  modify fun s => { s with tokenIndex := s.tokenIndex + 1 }
  addNode .passNode

/-- `parseKeywordEquals(name)`: the exact `KEYWORD name = value` shape
shared by DEFAULT and DEFINE. -/
def parseKeywordEquals (name : String) : PM (String × String) := do
  jsAssert (← hasSequenceAhead [.Keyword, .Word, .SetEquals])
    ("Malformed " ++ name ++ " command")
  let keyName ← rawOf (← findTokenFromOffset 1 .Word)
  skipMatched
  let t ← tokAt 0
  modify fun s => { s with tokenIndex := s.tokenIndex + 1 }
  pure (keyName, t.raw)

/-- `parseDefault()`. -/
def parseDefault : PM Unit := do
  let (defineName, defaultValue) ← parseKeywordEquals "DEFAULT"
  addNode (.defaultDefine defineName defaultValue)

/-- `parseDefine()`. -/
def parseDefine : PM Unit := do
  let (defineName, value) ← parseKeywordEquals "DEFINE"
  addNode (.defineNode defineName value)

/-- `parseSetMode()`. -/
def parseSetMode (fuel : Nat) : PM Unit := do
  jsAssert (← hasSequenceAhead [.Keyword, .Word, .OpenParen])
    "Malformed SETMODE command"
  let name ← rawOf (← findTokenFromOffset 1 .Word)
  skipMatched
  let modes ← parseParameterized fuel
  addNode (.setMode name modes)

/-- The collection loop of `parseRepeat`: tokens of the count expression,
up to the `Keyword Colon` lookahead (or the end of input). -/
def repeatCollect : Nat → PM (List Token)
  | 0 => throw "out of fuel"
  | fuel + 1 => do
    if !(← hasTokensLeft) then
      pure []
    else if ← hasSequenceAhead [.Keyword, .Colon] then
      pure []
    else do
      let t ← tokAt 0
      modify fun s => { s with tokenIndex := s.tokenIndex + 1 }
      (t :: ·) <$> repeatCollect fuel

/-- Modelled from the spec: `parseReturn`, the RETURN-keyword sub-parser.
The src/ copy of tree-parse.js has no RETURN dispatch (its
`TreeNodeTypes` ends at `Repeat`), yet the code generator present under
src/ (src/unnamed/part_002) consumes `TreeNodeTypes.Return` nodes
`{expression}` imported from its sibling tree-parse.js; that sibling
revision is not under src/.  Per the spec: `Return{expressionTokens}` is
a node whose expression is the verbatim token run of the rest of the
line, like an assignment's right-hand side.  Only the pipeline variant
with `extReturn = true` (claim C4 / spec Scenario B) uses this. -/
def parseReturn (fuel : Nat) : PM Unit := do
  modify fun s => { s with tokenIndex := s.tokenIndex + 1 }
  let expression ← collectToLineBreak fuel
  addNode (.returnNode expression)

mutual

/-- `parse(minLevel)` of tree-parse.js: run `parseStep` until it reports
done, asserting strict cursor progress otherwise; returns `this.nodes`.
`extReturn` enables the spec-modelled RETURN dispatch (see
`parseReturn`); `false` is the parser exactly as under src/. -/
def parse (extReturn : Bool) : Nat → Nat → PM (List TreeNode)
  | 0, _ => throw "out of fuel"
  | fuel + 1, minLevel => do
    if ← hasTokensLeft then
      let beforeIndex := (← get).tokenIndex
      let substepDone ← parseStep extReturn fuel minLevel
      jsAssert (substepDone || decide (beforeIndex < (← get).tokenIndex))
        "parseStep() should be strictly increasing token index"
      if substepDone then
        pure (← get).nodes
      else
        parse extReturn fuel minLevel
    else
      pure (← get).nodes

/-- `parseStep(minLevel)` of tree-parse.js (lines 175–245): skip line
breaks, measure leading whitespace, roll back and report done when the
level falls below `minLevel`, otherwise dispatch on the next token.  The
keyword dispatch of the src/ file handles exactly STRUCTURE, METHOD,
PASS, DEFAULT, DEFINE, SETMODE, MUTABLE and REPEAT; any other keyword is
the fatal `Unhandled keyword` assert.  (The JS also warns when the
keyword is not all-uppercase and dispatches on the uppercased spelling;
the console warning has no observable effect here.)  With
`extReturn = true` a RETURN branch modelled from the spec is added before
the fatal fallback. -/
def parseStep (extReturn : Bool) : Nat → Nat → PM Bool
  | 0, _ => throw "out of fuel"
  | fuel + 1, minLevel => do
    skipLineBreaks fuel
    if !(← hasTokensLeft) then
      pure true
    else
      let s0 ← get
      let oldLevel := s0.indentLevel
      let oldDelta := s0.indentDelta
      let (_, _, oldIndex) ← parseInitialWhitespace
      if !(← hasTokensLeft) then
        pure true
      else
        let s1 ← get
        if s1.indentLevel < minLevel then do
          modify fun st => { st with indentLevel := oldLevel, indentDelta := oldDelta,
                                     tokenIndex := oldIndex }
          pure true
        else if ← hasAhead .Comment then do
          parseComment
          pure false
        else if ← hasAhead .Keyword then do
          let keyword := jsToUpperCase (← tokAt 0).raw
          if keyword = "STRUCTURE" then parseStructure extReturn fuel
          else if keyword = "METHOD" then parseMethodDeclaration extReturn fuel
          else if keyword = "PASS" then parsePass
          else if keyword = "DEFAULT" then parseDefault
          else if keyword = "DEFINE" then parseDefine
          else if keyword = "SETMODE" then parseSetMode fuel
          else if keyword = "MUTABLE" then parseMutable fuel
          else if keyword = "REPEAT" then parseRepeat extReturn fuel
          else if extReturn && keyword = "RETURN" then parseReturn fuel
          else throw ("Unhandled keyword: " ++ keyword)
          pure false
        else do
          let succeeded ← parseHeadExpression fuel
          if succeeded then
            pure false
          else do
            let t? ← getToken? 0
            throw ("Unhandled token: " ++
              (match t? with | some t => t.dump | none => "undefined"))

/-- `parseStructure()` of tree-parse.js (lines 344–369): exact
`STRUCTURE name :` sequence, a line break, one whitespace measurement,
then a single `parseStep()` whose popped node becomes the only child
(popping an empty node list yields the JS `undefined`, i.e.
`TreeNode.undef`). -/
def parseStructure (extReturn : Bool) : Nat → PM Unit
  | 0 => throw "out of fuel"
  | fuel + 1 => do
    jsAssert (← hasSequenceAhead [.Keyword, .Word, .Colon])
      "Malformed STRUCTURE command"
    let structureName ← rawOf (← findTokenFromOffset 1 .Word)
    skipMatched
    jsAssert (← hasAhead .LineBreak) "Expected line break after STRUCTURE command"
    modify fun s => { s with tokenIndex := s.tokenIndex + 1 }
    let _ ← parseInitialWhitespace
    let _ ← parseStep extReturn fuel 0
    let node := (← get).nodes.getLast?.getD .undef
    modify fun s => { s with nodes := s.nodes.dropLast }
    addNode (.structureNode structureName [node])

/-- `parseMethodDeclaration()` of tree-parse.js: optional parameter list,
optional `-> Type` return-type indicator, a colon, the base-level check,
then the indented body via `descendParse`. -/
def parseMethodDeclaration (extReturn : Bool) : Nat → PM Unit
  | 0 => throw "out of fuel"
  | fuel + 1 => do
    let hasParameters ← hasSequenceAhead [.Keyword, .Word, .OpenParen]
    if !hasParameters then
      jsAssert (← hasSequenceAhead [.Keyword, .Word]) "Malformed METHOD command"
    let methodName ← rawOf (← findTokenFromOffset 1 .Word)
    skipMatched
    let parameters ← if hasParameters then parseParameterized fuel else pure []
    let returnType ←
      if ← hasAhead .ReturnTypeIndicator then do
        jsAssert (← hasSequenceAhead [.ReturnTypeIndicator, .Word])
          "Malformed return type indicator"
        let t ← getTokenOffsetNoSpaces 1
        skipMatched
        pure (some t.raw)
      else
        pure none
    jsAssert (← hasAhead .Colon) "Expected colon following METHOD argument list"
    modify fun s => { s with tokenIndex := s.tokenIndex + 1 }
    let baseLevel := (← get).indentLevel
    jsAssert (decide (baseLevel = 0)) "Can only have method declarations at base level"
    let children ← descendParse extReturn fuel baseLevel
    addNode (.methodDeclaration methodName parameters returnType children)

/-- `parseRepeat()` of tree-parse.js: collect the count expression up to
the `TIMES :` lookahead, check the keyword is TIMES, then the indented
body. -/
def parseRepeat (extReturn : Bool) : Nat → PM Unit
  | 0 => throw "out of fuel"
  | fuel + 1 => do
    modify fun s => { s with tokenIndex := s.tokenIndex + 1 }
    let countExpression ← repeatCollect fuel
    jsAssert (← hasTokensLeft) "Runaway REPEAT loop"
    let kw ← rawOf (← findTokenFromOffset 0 .Keyword)
    jsAssert (kw = "TIMES") "Expected TIMES before Colon"
    skipMatched
    let baseLevel := (← get).indentLevel
    let children ← descendParse extReturn fuel baseLevel
    addNode (.repeatNode countExpression children)

/-- `descendParse(baseLevel)`: recurse at `minLevel = baseLevel + 1`,
splicing off the nodes produced by the nested call as the children. -/
def descendParse (extReturn : Bool) : Nat → Nat → PM (List TreeNode)
  | 0, _ => throw "out of fuel"
  | fuel + 1, baseLevel => do
    let nodeLength := (← get).nodes.length
    let _ ← parse extReturn fuel (baseLevel + 1)
    let children := (← get).nodes.drop nodeLength
    modify fun s => { s with nodes := s.nodes.take nodeLength }
    pure children

end

/-- The `TreeParser` constructor's type-name registry: exactly the
built-in types. -/
def initTypeContext : List (String × WordType) :=
  [("Int", .typeWord), ("Byte", .typeWord), ("Array", .typeWord)]

/-- The fields initialised by the `TreeParser` constructor: the
type-name registry is seeded with the built-in types and — in the src/
tree-parse.js — never written again by any parser method. -/
def initPState (tokens : List Token) : PState :=
  { tokenIndex := 0
    tokens := tokens
    indentLevel := 0
    indentDelta := 0
    typeContext := initTypeContext
    variableTypes := []
    matched := none
    nodes := [] }

/-- A fuel bound comfortably above what any run can consume: every
recursive call either consumes a token or performs constant work per
construct. -/
def parseFuel (tokens : List Token) : Nat := 8 * tokens.length + 64

/-- `makeTree(tokens)` of tree-parse.js (the catch block only logs and
rethrows, so the thrown error propagates unchanged).  `extReturn` as in
`parse`. -/
def makeTreeExt (extReturn : Bool) (tokens : List Token) :
    Except String (List TreeNode) :=
  ((parse extReturn (parseFuel tokens) 0).run (initPState tokens)).map (·.1)

/-- `makeTree(tokens)` exactly as under src/ (no RETURN dispatch). -/
def makeTree (tokens : List Token) : Except String (List TreeNode) :=
  makeTreeExt false tokens

/-! ## The code generator (`CSkeletonizer`, src/unnamed/part_002) -/

/-- One entry of the generator's mode registry `defineInfo`:
`{current, options}`. -/
structure DefineInfo where
  current : Option String
  options : List String
deriving DecidableEq

/-- The mutable fields of a `CSkeletonizer` instance.  `temporaries` is
the JS object `{_temp_0: false, ..., _temp_9: false}` as a list of
allocation flags indexed by the temporary's number. -/
structure CSkel where
  typeInfo : List (String × (String × Bool))
  defineInfo : List (String × DefineInfo)
  codeLines : List String
  includeLines : List String
  headerLines : List String
  emitLevel : Nat
  indentCount : Nat
  temporaries : List Bool
  typeMap : List (String × String)
deriving DecidableEq

/-- The generator's effect: mutable `CSkeletonizer` state plus thrown JS
errors. -/
abbrev SM (α : Type) := StateT CSkel (Except String) α

/-- `CSkeletonizer.MAX_TEMPORARY_COUNT`. -/
def MAX_TEMPORARY_COUNT : Nat := 10

/-- `CSkeletonizer.CTypeMap` (the static table; each instance copies it
into `this.typeMap`). -/
def CTypeMap : List (String × String) :=
  [("Int", "int"), ("Byte", "uint8_t"), ("Void", "void")]

/-- The `CSkeletonizer` constructor (default `indentCount = 4`). -/
def initCSkel : CSkel :=
  { typeInfo := []
    defineInfo := []
    codeLines := []
    includeLines := ["#include <stdint.h>", "#define true (1)", "#define false (0)"]
    headerLines := []
    emitLevel := 0
    indentCount := 4
    temporaries := List.replicate MAX_TEMPORARY_COUNT false
    typeMap := CTypeMap }

/-- `assert` under the generator's effect. -/
def sAssert (b : Bool) (msg : String) : SM Unit :=
  if b then pure () else throw msg

/-- Index of the first unallocated slot, i.e. the scan of
`getTemporary()`. -/
def firstFreeIdx : List Bool → Option Nat
  | [] => none
  | b :: bs => if b then (firstFreeIdx bs).map (· + 1) else some 0

/-- `getTemporary()`: mark the lowest-numbered free `_temp_i` allocated
and return its name; exhaustion is the fatal
`No more temporaries available`. -/
def getTemporary : SM String := do
  let s ← get
  match firstFreeIdx s.temporaries with
  | none => throw "No more temporaries available"
  | some i => do
    set { s with temporaries := s.temporaries.set i true }
    pure ("_temp_" ++ toString i)

/-- `releaseTemporary(name)` exists on `CSkeletonizer` but is invoked by
no code-generation path; kept (keyed by the temporary's number) to
witness that fact. -/
def releaseTemporary (i : Nat) : SM Unit :=
  modify fun s => { s with temporaries := s.temporaries.set i false }

/-- `emitGroupStart()`. -/
def emitGroupStart : SM Unit :=
  modify fun s => { s with emitLevel := s.emitLevel + s.indentCount }

/-- `emitGroupEnd()`: the fatal `No open group to end` below one open
group. -/
def emitGroupEnd : SM Unit := do
  let s ← get
  if s.indentCount ≤ s.emitLevel then
    set { s with emitLevel := s.emitLevel - s.indentCount }
  else
    throw "No open group to end"

/-- `emit(line)`: append to `codeLines`, indented by `emitLevel`
spaces. -/
def emit (line : String) : SM Unit :=
  modify fun s =>
    { s with codeLines :=
        s.codeLines ++ [String.mk (List.replicate s.emitLevel ' ') ++ line] }

/-- The three operator-spelling rewrites of `getCExpression`. -/
def opRaw (r : String) : String :=
  if r = "and" then "&&"
  else if r = "or" then "||"
  else if r = "is" then "=="
  else r

/-- `getCExpression(expression)`: rewrite the three spellings, join the
raw texts with NO separator, trim. -/
def getCExpression (expression : List Token) : String :=
  jsTrim (String.join (expression.map (fun t => opRaw t.raw)))

/-- `assertValidDefine(name, value)`. -/
def assertValidDefine (name value : String) : SM Unit := do
  let s ← get
  match alookup name s.defineInfo with
  | none => throw ("Undefined mode " ++ value ++ ". Did you forget a SETMODE?")
  | some di =>
    if di.options.contains value then
      pure ()
    else
      throw (value ++ " is not a valid mode for " ++ name ++
        ". Valid options include: " ++ String.intercalate " | " di.options)

/-- An entry of the MethodDeclaration branch's `parsedParameters`:
either a plain raw text or the `[base, "[d1][d2]..."]` pair produced by
the `Array [...]` collapsing. -/
inductive PParam where
  | plain (s : String)
  | arr (base : String) (suffix : String)
deriving DecidableEq

/-- JS string interpolation of a `parsedParameters` entry (an array
interpolates as its comma-joined elements). -/
def PParam.render : PParam → String
  | .plain s => s
  | .arr base suffix => base ++ "," ++ suffix

/-- `parameters.findIndex((c, idx) => c.raw === "]" && idx > i)`. -/
def findCloseBracketAfter (parameters : List Token) (i : Nat) : Option Nat :=
  (List.range parameters.length).find? fun idx =>
    decide (i < idx) && (parameters[idx]?.map (fun t => decide (t.raw = "]"))).getD false

/-- The `parsedParameters` loop of the MethodDeclaration branch: collapse
`Array [ base d1 d2 ... ]` runs into one compound entry.  The lexer has
no bracket pattern, so the `Array` arm is unreachable from lexed input;
it is embedded for completeness.  When no `]` follows, JS sets
`i = findIndex(...) = -1` and the `i++` makes the loop rescan from 0
forever — that divergence, and the JS quirks `dims.shift()` of an empty
array (`undefined` base) are modelled as an error and the literal
`"undefined"`. -/
def parsedParams (parameters : List Token) : Nat → Nat → Except String (List PParam)
  | _, 0 => .error "JS infinite loop"
  | i, fuel + 1 =>
    if _h : i < parameters.length then
      let t := parameters.get ⟨i, _h⟩
      if t.raw = "Array" then
        match parameters[i + 1]? with
        | none => .error typeErrorMsg
        | some t1 =>
          if t1.raw = "[" then
            match findCloseBracketAfter parameters i with
            | none => .error "JS infinite loop"
            | some j =>
              let dims := ((parameters.take j).drop (i + 2)).map (fun c => c.raw)
              let base := (dims.head?).getD "undefined"
              let suffix :=
                String.join ((dims.drop 1).map (fun c => "[" ++ c ++ "]"))
              (parsedParams parameters (j + 1) fuel).map (PParam.arr base suffix :: ·)
          else
            .error "Assertion failed"
      else
        (parsedParams parameters (i + 1) fuel).map (PParam.plain t.raw :: ·)
    else
      .ok []

/-- The `typedParameters` pairing loop: `cType` entry, `paramName` entry,
rendered through `typeMap` (`?? cType` keeps unknown names; a compound
array entry keeps its suffix after the name). -/
def typedParams (typeMap : List (String × String)) : List PParam → List String
  | a :: b :: rest =>
    (match a with
     | .plain s => ((alookup s typeMap).getD s) ++ " " ++ b.render
     | .arr base suffix =>
       ((alookup base typeMap).getD base) ++ " " ++ b.render ++ suffix)
      :: typedParams typeMap rest
  | _ => []

mutual

/-- `skeletonizeNode(node, level)` of `CSkeletonizer`
(src/unnamed/part_002 lines 99–356).  part_002 also has branches
comparing `node.type` against `TreeNodeTypes.If / While / Choose / For /
ElseIf / Else`, bindings that do not exist in the src/ tree-parse.js (that
JS binding evaluates to `undefined`), so those comparisons never hold for any
node the parser can build and no constructor exists for them here.  The
`Return` branch (lines 349–352) is real part_002 code and handles the
`returnNode` constructor.  An `undefined` entry in a children array
(`TreeNode.undef`) crashes on the first `node.type` read, as in JS. -/
def skeletonizeNode : TreeNode → Nat → SM Unit
  | .comment _, _ => pure ()
  | .declaration dtype declared mutableFlag, _ => do
    let s ← get
    let cType := (alookup dtype s.typeMap).getD dtype
    let vars := declared.map (fun t => t.raw)
    let typeInfo' := vars.foldl (fun m v => aupdate v (cType, mutableFlag) m) s.typeInfo
    set { s with typeInfo := typeInfo' }
    emit (cType ++ " " ++ String.intercalate ", " vars ++ ";")
  | .assignment varName expression, _ => do
    let cExpression := getCExpression expression
    let s ← get
    match alookup varName s.typeInfo with
    | none => throw typeErrorMsg
    | some (cType, mutableFlag) =>
      if mutableFlag then
        emit (varName ++ " = " ++ cExpression ++ ";")
      else
        emit ("#define " ++ varName ++ " ((" ++ cType ++ ") " ++ cExpression ++ ")")
  | .structureNode name children, _ => do
    sAssert (decide (children.length = 1)) "Complex structures currently unimplemented"
    let child := children.head?.getD .undef
    modify fun s => { s with typeMap := aupdate name name s.typeMap }
    match child with
    | .passNode => emit ("typedef /* TODO: FILL */ " ++ name ++ ";")
    | .declaration dtype declared _ =>
      if dtype = "Array" then do
        match declared.head? with
        | none => throw typeErrorMsg
        | some t0 => do
          let s ← get
          let subType := (alookup t0.raw s.typeMap).getD "undefined"
          let dimensions :=
            String.join ((declared.drop 1).map (fun t => "[" ++ t.raw ++ "]"))
          emit ("typedef " ++ subType ++ " " ++ name ++ dimensions ++ ";")
      else
        throw "TODO: IMPLEMENT `Other structure datatypes besides array`"
    | .undef => throw typeErrorMsg
    | _ => throw "Structure must have a variable declaration"
  | .methodDeclaration name parameters returnType children, level => do
    let returnKey := returnType.getD "Void"
    match parsedParams parameters 0 (parameters.length + 1) with
    | .error e => throw e
    | .ok parsedParameters => do
      sAssert (decide (parsedParameters.length % 2 = 0)) "Expected a list of type-name pairs"
      let s ← get
      let returnTypeC := (alookup returnKey s.typeMap).getD "undefined"
      let typedParameters := typedParams s.typeMap parsedParameters
      let joined := String.intercalate ", " typedParameters
      let paramSignature := if joined = "" then "void" else joined
      set { s with headerLines :=
        s.headerLines ++ ["void " ++ name ++ "(" ++ paramSignature ++ ");"] }
      emit (returnTypeC ++ " " ++ name ++ " (" ++ paramSignature ++ ") \x7b")
      emitGroupStart
      skeletonizeList children (level + 1)
      emitGroupEnd
      emit "\x7d"
  | .methodCall method parameters, level => do
    sAssert (decide (0 < level)) "Cannot call method at top level"
    emit (method.raw ++ "(" ++ getCExpression parameters ++ ");")
  | .passNode, _ => emit "//TODO:"
  | .defaultDefine name defaultValue, _ => do
    assertValidDefine name defaultValue
    let s ← get
    match alookup name s.defineInfo with
    | none => throw typeErrorMsg
    | some di => do
      let macroName := name ++ "_" ++ defaultValue
      let condition := String.intercalate " && "
        (di.options.map (fun option => "!defined(" ++ name ++ "_" ++ option ++ ")"))
      set { s with headerLines := s.headerLines ++
        ["#if " ++ condition, "  #define " ++ macroName, "#endif"] }
  | .defineNode name value, _ => do
    assertValidDefine name value
    let s ← get
    match alookup name s.defineInfo with
    | none => throw typeErrorMsg
    | some di => do
      let macroName := name ++ "_" ++ value
      let undefLines :=
        match di.current with
        | some current => ["#undef " ++ current]
        | none => []
      set { s with
        headerLines := s.headerLines ++ undefLines ++ ["#define " ++ macroName]
        defineInfo := aupdate name { di with current := some macroName } s.defineInfo }
  | .setMode name modes, _ => do
    let options := modes.map (fun t => t.raw)
    let fullOptions := String.intercalate " | "
      (options.map (fun option => name ++ "_" ++ option))
    modify fun s =>
      { s with
        defineInfo := aupdate name ⟨none, options⟩ s.defineInfo
        headerLines := s.headerLines ++ ["/** " ++ name ++ ": " ++ fullOptions ++ " **/"] }
  | .repeatNode condition children, level => do
    let conditionExpression := String.intercalate " "
      ((condition.filter (fun t => t.type ≠ .Spaces)).map (fun t => t.raw))
    let temp ← getTemporary
    emit ("for(int " ++ temp ++ " = 0; " ++ temp ++ " < " ++ conditionExpression ++
      "; " ++ temp ++ "++) \x7b")
    emitGroupStart
    skeletonizeList children (level + 1)
    emitGroupEnd
    emit "\x7d"
  | .returnNode expression, _ =>
    emit ("return " ++ getCExpression expression ++ ";")
  | .undef, _ => throw typeErrorMsg

/-- `skeletonize()`: each top-level node at level 0 (and the recursion
into children at `level + 1`). -/
def skeletonizeList : List TreeNode → Nat → SM Unit
  | [], _ => pure ()
  | n :: ns, level => do
    skeletonizeNode n level
    skeletonizeList ns level

end

/-- Run the generator, returning its final state. -/
def runSkeletonize (treeNodes : List TreeNode) : Except String CSkel :=
  ((skeletonizeList treeNodes 0).run initCSkel).map (·.2)

/-- The exported `skeletonize(treeNodes)` of part_002: includes, blank,
header lines, blank, code lines, joined by newlines. -/
def skeletonize (treeNodes : List TreeNode) : Except String String :=
  (runSkeletonize treeNodes).map fun s =>
    String.intercalate "\n" (s.includeLines ++ [""] ++ s.headerLines ++ [""] ++ s.codeLines)

/-- The full pipeline `tokenize → makeTree → skeletonize` (the pure
function the shells compose); `extReturn` as in `parse`. -/
def compileExt (extReturn : Bool) (src : String) : Except String String := do
  skeletonize (← makeTreeExt extReturn (← tokenizeStr src))

/-- Pipeline with the src/ parser exactly as given. -/
def compile (src : String) : Except String String := compileExt false src

/-- Pipeline variant exposing the generator's final state. -/
def compileStateExt (extReturn : Bool) (src : String) : Except String CSkel := do
  runSkeletonize (← makeTreeExt extReturn (← tokenizeStr src))

/-! ## A heap-explicit rendering of the generator, for the frame claim

JS tree nodes are mutable objects on a heap; `skeletonize` receives
references into that heap.  To state that generation writes no node
field, the nodes are re-rendered as records in an explicit store
(children become store indices) that the generator state carries next to
the `CSkeletonizer` fields; every node access goes through a read of the
store, and — mirroring part_002, which contains no assignment to any
`node.*` — no operation writes it. -/

/-- A `TreeNode` object as a heap record: tag plus payload, with child
references.  A dangling reference plays the role of a JS `undefined`
child. -/
inductive NodeData where
  | comment (text : String)
  | declaration (dtype : String) (declared : List Token) (mutableFlag : Bool)
  | assignment (varName : String) (expression : List Token)
  | structureNode (name : String) (children : List Nat)
  | methodDeclaration (name : String) (parameters : List Token)
      (returnType : Option String) (children : List Nat)
  | methodCall (method : Token) (parameters : List Token)
  | passNode
  | defaultDefine (name : String) (defaultValue : String)
  | defineNode (name : String) (value : String)
  | setMode (name : String) (modes : List Token)
  | repeatNode (condition : List Token) (children : List Nat)
  | returnNode (expression : List Token)
deriving DecidableEq

/-- The node store. -/
abbrev Heap := List NodeData

/-- Generator state together with the node heap. -/
structure GState where
  skel : CSkel
  heap : Heap
deriving DecidableEq

/-- The heap-explicit generator's effect. -/
abbrev GM (α : Type) := StateT GState (Except String) α

/-- Run a `CSkeletonizer`-state action inside the heap-carrying state:
all of the generator's own mutation goes through here. -/
def liftSkel (m : SM α) : GM α := fun g =>
  (m g.skel).map (fun p => (p.1, { g with skel := p.2 }))

/-- Read a node record (a dangling reference reads like a property of
`undefined`). -/
def readNode (id : Nat) : GM NodeData := fun g =>
  match g.heap[id]? with
  | none => .error typeErrorMsg
  | some nd => .ok (nd, g)

/-- The non-recursive part of the Structure branch, applied to the
(already read) child record. -/
def structChildWork (name : String) (child : NodeData) : SM Unit := do
  match child with
  | .passNode => emit ("typedef /* TODO: FILL */ " ++ name ++ ";")
  | .declaration dtype declared _ =>
    if dtype = "Array" then do
      match declared.head? with
      | none => throw typeErrorMsg
      | some t0 => do
        let s ← get
        let subType := (alookup t0.raw s.typeMap).getD "undefined"
        let dimensions :=
          String.join ((declared.drop 1).map (fun t => "[" ++ t.raw ++ "]"))
        emit ("typedef " ++ subType ++ " " ++ name ++ dimensions ++ ";")
    else
      throw "TODO: IMPLEMENT `Other structure datatypes besides array`"
  | _ => throw "Structure must have a variable declaration"

/-- The MethodDeclaration branch up to the body recursion. -/
def methodHeadWork (name : String) (parameters : List Token)
    (returnType : Option String) : SM Unit := do
  let returnKey := returnType.getD "Void"
  match parsedParams parameters 0 (parameters.length + 1) with
  | .error e => throw e
  | .ok parsedParameters => do
    sAssert (decide (parsedParameters.length % 2 = 0)) "Expected a list of type-name pairs"
    let s ← get
    let returnTypeC := (alookup returnKey s.typeMap).getD "undefined"
    let typedParameters := typedParams s.typeMap parsedParameters
    let joined := String.intercalate ", " typedParameters
    let paramSignature := if joined = "" then "void" else joined
    set { s with headerLines :=
      s.headerLines ++ ["void " ++ name ++ "(" ++ paramSignature ++ ");"] }
    emit (returnTypeC ++ " " ++ name ++ " (" ++ paramSignature ++ ") \x7b")
    emitGroupStart

/-- The Repeat branch up to the body recursion. -/
def repeatHeadWork (condition : List Token) : SM Unit := do
  let conditionExpression := String.intercalate " "
    ((condition.filter (fun t => t.type ≠ .Spaces)).map (fun t => t.raw))
  let temp ← getTemporary
  emit ("for(int " ++ temp ++ " = 0; " ++ temp ++ " < " ++ conditionExpression ++
    "; " ++ temp ++ "++) \x7b")
  emitGroupStart

/-- Every non-recursive branch of `skeletonizeNode`, as a
`CSkeletonizer`-state action (identical to the corresponding arms of
`skeletonizeNode`). -/
def leafWork : NodeData → Nat → SM Unit
  | .comment _, _ => pure ()
  | .declaration dtype declared mutableFlag, _ => do
    let s ← get
    let cType := (alookup dtype s.typeMap).getD dtype
    let vars := declared.map (fun t => t.raw)
    let typeInfo' := vars.foldl (fun m v => aupdate v (cType, mutableFlag) m) s.typeInfo
    set { s with typeInfo := typeInfo' }
    emit (cType ++ " " ++ String.intercalate ", " vars ++ ";")
  | .assignment varName expression, _ => do
    let cExpression := getCExpression expression
    let s ← get
    match alookup varName s.typeInfo with
    | none => throw typeErrorMsg
    | some (cType, mutableFlag) =>
      if mutableFlag then
        emit (varName ++ " = " ++ cExpression ++ ";")
      else
        emit ("#define " ++ varName ++ " ((" ++ cType ++ ") " ++ cExpression ++ ")")
  | .methodCall method parameters, level => do
    sAssert (decide (0 < level)) "Cannot call method at top level"
    emit (method.raw ++ "(" ++ getCExpression parameters ++ ");")
  | .passNode, _ => emit "//TODO:"
  | .defaultDefine name defaultValue, _ => do
    assertValidDefine name defaultValue
    let s ← get
    match alookup name s.defineInfo with
    | none => throw typeErrorMsg
    | some di => do
      let macroName := name ++ "_" ++ defaultValue
      let condition := String.intercalate " && "
        (di.options.map (fun option => "!defined(" ++ name ++ "_" ++ option ++ ")"))
      set { s with headerLines := s.headerLines ++
        ["#if " ++ condition, "  #define " ++ macroName, "#endif"] }
  | .defineNode name value, _ => do
    assertValidDefine name value
    let s ← get
    match alookup name s.defineInfo with
    | none => throw typeErrorMsg
    | some di => do
      let macroName := name ++ "_" ++ value
      let undefLines :=
        match di.current with
        | some current => ["#undef " ++ current]
        | none => []
      set { s with
        headerLines := s.headerLines ++ undefLines ++ ["#define " ++ macroName]
        defineInfo := aupdate name { di with current := some macroName } s.defineInfo }
  | .setMode name modes, _ => do
    let options := modes.map (fun t => t.raw)
    let fullOptions := String.intercalate " | "
      (options.map (fun option => name ++ "_" ++ option))
    modify fun s =>
      { s with
        defineInfo := aupdate name ⟨none, options⟩ s.defineInfo
        headerLines := s.headerLines ++ ["/** " ++ name ++ ": " ++ fullOptions ++ " **/"] }
  | .returnNode expression, _ =>
    emit ("return " ++ getCExpression expression ++ ";")
  | .structureNode _ _, _ => pure ()
  | .methodDeclaration _ _ _ _, _ => pure ()
  | .repeatNode _ _, _ => pure ()

mutual

/-- `skeletonizeNode(node, level)` over the heap: identical dispatch to
`skeletonizeNode`, with node reads through `readNode` and children as
references.  `fuel` bounds the recursion (a cyclic heap would make the
JS recursion diverge). -/
def hSkeletonizeNode : Nat → Nat → Nat → GM Unit
  | 0, _, _ => throw "out of fuel"
  | fuel + 1, id, level => do
    match ← readNode id with
    | .structureNode name children => do
      liftSkel (sAssert (decide (children.length = 1))
        "Complex structures currently unimplemented")
      liftSkel (modify fun s => { s with typeMap := aupdate name name s.typeMap })
      match children.head? with
      | none => throw typeErrorMsg
      | some cid => do
        let child ← readNode cid
        liftSkel (structChildWork name child)
    | .methodDeclaration name parameters returnType children => do
      liftSkel (methodHeadWork name parameters returnType)
      hSkeletonizeList fuel children (level + 1)
      liftSkel (do emitGroupEnd; emit "\x7d")
    | .repeatNode condition children => do
      liftSkel (repeatHeadWork condition)
      hSkeletonizeList fuel children (level + 1)
      liftSkel (do emitGroupEnd; emit "\x7d")
    | nd => liftSkel (leafWork nd level)

/-- `skeletonize()` over the heap. -/
def hSkeletonizeList : Nat → List Nat → Nat → GM Unit
  | 0, _, _ => throw "out of fuel"
  | _ + 1, [], _ => pure ()
  | fuel + 1, id :: rest, level => do
    hSkeletonizeNode fuel id level
    hSkeletonizeList fuel rest level

end

/-- Heap-explicit `skeletonize(treeNodes)`: fresh generator state, walk
the root references, return the rendered output together with the final
heap. -/
def hSkeletonize (fuel : Nat) (heap : Heap) (roots : List Nat) :
    Except String (String × Heap) :=
  ((hSkeletonizeList fuel roots 0) ⟨initCSkel, heap⟩).map fun p =>
    (String.intercalate "\n"
      (p.2.skel.includeLines ++ [""] ++ p.2.skel.headerLines ++ [""] ++ p.2.skel.codeLines),
     p.2.heap)

/-! ## Definitions used only in the claim statements -/

/-- Concatenation, in order, of the raw text of a token list (the
lexing round-trip observation). -/
def concatRaws : List Token → String
  | [] => ""
  | t :: ts => t.raw ++ concatRaws ts

/-- `M ++ "_" ++ v`, the fully qualified option macro name. -/
def macroOf (M v : String) : String := M ++ "_" ++ v

/-- The documentation comment the SetMode branch pushes to the header
stream. -/
def setModeLine (M : String) (opts : List String) : String :=
  "/** " ++ M ++ ": " ++ String.intercalate " | " (opts.map (fun o => macroOf M o)) ++ " **/"

/-- Header lines produced by a run of Define nodes for mode `M` after
one is already active: before each new `#define`, an `#undef` of the
previously active macro. -/
def defineBlock (M : String) : String → List String → List String
  | _, [] => []
  | prev, v :: vs =>
    ("#undef " ++ prev) :: ("#define " ++ macroOf M v) :: defineBlock M (macroOf M v) vs

/-- Header lines produced by a nonempty run of Define nodes for mode `M`
starting with no active selection: a bare `#define` first, then
undef/define pairs. -/
def defineLines (M : String) : List String → List String
  | [] => []
  | v :: vs => ("#define " ++ macroOf M v) :: defineBlock M (macroOf M v) vs

/-- Classify a header line as an (unconditional) `#define` or `#undef`
of a macro. -/
def lineMacro (l : String) : Option (Bool × String) :=
  match l.data with
  | '#' :: 'd' :: 'e' :: 'f' :: 'i' :: 'n' :: 'e' :: ' ' :: rest => some (true, ⟨rest⟩)
  | '#' :: 'u' :: 'n' :: 'd' :: 'e' :: 'f' :: ' ' :: rest => some (false, ⟨rest⟩)
  | _ => none

/-- Preprocessor-state step: a `#define` adds the macro (if absent), an
`#undef` removes it, anything else changes nothing. -/
def activeStep (acc : List String) (l : String) : List String :=
  match lineMacro l with
  | some (true, m) => if acc.contains m then acc else acc ++ [m]
  | some (false, m) => acc.filter (fun x => x ≠ m)
  | none => acc

/-- The macros still `#define`d after processing the lines in order. -/
def activeDefines (ls : List String) : List String := ls.foldl activeStep []

/-- The pool state after `k` acquisitions and no release: a prefix of
allocated slots. -/
def poolK (k : Nat) : List Bool :=
  List.replicate k true ++ List.replicate (MAX_TEMPORARY_COUNT - k) false

/-- `n` nested Repeat loops (count expression `3`) around a PASS. -/
def repeatTower : Nat → TreeNode
  | 0 => .passNode
  | n + 1 => .repeatNode [⟨.Number, "3"⟩] [repeatTower n]

/-- `n` sibling Repeat loops (count expression `3`), each with a PASS
body. -/
def repeatRow (n : Nat) : List TreeNode :=
  List.replicate n (.repeatNode [⟨.Number, "3"⟩] [.passNode])

/-- The macro name active after a run of Define values, starting from an
already-active macro `prev`. -/
def lastMacro (M : String) (prev : String) : List String → String
  | [] => prev
  | v :: vs => lastMacro M (macroOf M v) vs

/-! ## State-component preservation machinery -/

/-- `m` preserves the state component selected by `f`: every successful
run leaves it unchanged. -/
def StatePres (f : σ → τ) (m : StateT σ (Except String) α) : Prop :=
  ∀ s a s', m s = .ok (a, s') → f s' = f s

/-! # Theorems -/

/-! ## Symbolic-execution toolkit for the state monad -/

theorem stExc_bind_ok {m : StateT σ (Except String) α}
    {k : α → StateT σ (Except String) β} {s s' : σ} {a : α}
    (h : m s = .ok (a, s')) : (m >>= k) s = k a s' := by
  simp only [Bind.bind, StateT.bind, h, Except.bind]

theorem stExc_bind_err {m : StateT σ (Except String) α}
    {k : α → StateT σ (Except String) β} {s : σ} {e : String}
    (h : m s = .error e) : (m >>= k) s = .error e := by
  simp only [Bind.bind, StateT.bind, h, Except.bind]

theorem stExc_map_ok {m : StateT σ (Except String) α} {s s' : σ} {a : α}
    (g : α → β) (h : m s = .ok (a, s')) : (g <$> m) s = .ok (g a, s') := by
  simp only [Functor.map, StateT.map, h, Except.bind, bind, pure, Except.pure]

theorem exc_bind_ok (a : α) (f : α → Except String β) :
    ((Except.ok a : Except String α) >>= f) = f a := rfl

theorem exc_bind_err (e : String) (f : α → Except String β) :
    ((Except.error e : Except String α) >>= f) = .error e := rfl

theorem get_eq (s : σ) : (get : StateT σ (Except String) σ) s = .ok (s, s) := rfl

theorem modify_eq (g : σ → σ) (s : σ) :
    (modify g : StateT σ (Except String) PUnit) s = .ok (⟨⟩, g s) := rfl

theorem pure_eq (a : α) (s : σ) :
    (pure a : StateT σ (Except String) α) s = .ok (a, s) := rfl

theorem throw_eq (e : String) (s : σ) :
    (throw e : StateT σ (Except String) α) s = .error e := rfl

/-- Step the full pipeline (state-exposing form) through anchored
intermediate results. -/
theorem compileStateExt_steps {ext : Bool} {src : String} {ts : List Token}
    {tr : List TreeNode} {r : Except String CSkel}
    (h1 : tokenizeStr src = .ok ts) (h2 : makeTreeExt ext ts = .ok tr)
    (h3 : runSkeletonize tr = r) : compileStateExt ext src = r := by
  unfold compileStateExt
  rw [h1]
  simp only [exc_bind_ok]
  rw [h2]
  simp only [exc_bind_ok]
  exact h3

/-- Step the full pipeline (text-producing form) through anchored
intermediate results. -/
theorem compileExt_steps {ext : Bool} {src : String} {ts : List Token}
    {tr : List TreeNode} {r : Except String String}
    (h1 : tokenizeStr src = .ok ts) (h2 : makeTreeExt ext ts = .ok tr)
    (h3 : skeletonize tr = r) : compileExt ext src = r := by
  unfold compileExt
  rw [h1]
  simp only [exc_bind_ok]
  rw [h2]
  simp only [exc_bind_ok]
  exact h3

theorem statePres_pure (f : σ → τ) (a : α) :
    StatePres f (pure a : StateT σ (Except String) α) := by
  intro s b s' h
  cases h
  rfl

theorem statePres_throw (f : σ → τ) (e : String) :
    StatePres f (throw e : StateT σ (Except String) α) := by
  intro s b s' h
  cases h

theorem statePres_get (f : σ → τ) : StatePres f (get : StateT σ (Except String) σ) := by
  intro s b s' h
  cases h
  rfl

theorem statePres_set (f : σ → τ) (v : σ) (s₀ : σ) (hv : f v = f s₀) :
    ∀ a s', (set v : StateT σ (Except String) PUnit) s₀ = .ok (a, s') → f s' = f s₀ := by
  intro a s' h
  cases h
  exact hv

theorem statePres_modify (f : σ → τ) (g : σ → σ) (hg : ∀ s, f (g s) = f s) :
    StatePres f (modify g : StateT σ (Except String) PUnit) := by
  intro s b s' h
  cases h
  exact hg s

theorem statePres_bind {f : σ → τ} {m : StateT σ (Except String) α}
    {k : α → StateT σ (Except String) β}
    (hm : StatePres f m) (hk : ∀ a, StatePres f (k a)) : StatePres f (m >>= k) := by
  intro s b s' h
  simp only [Bind.bind, StateT.bind] at h
  cases hm' : m s with
  | error e => rw [hm'] at h; cases h
  | ok p =>
    rw [hm'] at h
    simp only [Except.bind] at h
    have h1 := hm s p.1 p.2 hm'
    have h2 := hk p.1 p.2 b s' h
    rw [h2, h1]

theorem statePres_map {f : σ → τ} {m : StateT σ (Except String) α} (g : α → β)
    (hm : StatePres f m) : StatePres f (g <$> m) := by
  intro s b s' h
  simp only [Functor.map, StateT.map] at h
  cases hm' : m s with
  | error e => rw [hm'] at h; cases h
  | ok p =>
    rw [hm'] at h
    simp only [Bind.bind, Except.bind, pure, Except.pure] at h
    cases h
    exact hm s p.1 p.2 hm'

theorem statePres_ite {f : σ → τ} {c : Prop} [Decidable c]
    {m₁ m₂ : StateT σ (Except String) α}
    (h1 : StatePres f m₁) (h2 : StatePres f m₂) :
    StatePres f (if c then m₁ else m₂) := by
  split <;> assumption

/-! ### The parser never writes its type-name registry

`typeContext` is assigned only in the `TreeParser` constructor; these
lemmas verify, function by function, that no parser method changes it
(the fact behind the corrected form of the STRUCTURE-registry claim). -/

theorem tc_jsAssert (b : Bool) (msg : String) :
    StatePres PState.typeContext (jsAssert b msg) := by
  unfold jsAssert
  exact statePres_ite (statePres_pure _ _) (statePres_throw _ _)

theorem tc_hasTokensLeft : StatePres PState.typeContext hasTokensLeft := by
  unfold hasTokensLeft
  exact statePres_bind (statePres_get _) (fun _ => statePres_pure _ _)

theorem tc_getTokenQ (i : Nat) : StatePres PState.typeContext (getToken? i) := by
  unfold getToken?
  exact statePres_bind (statePres_get _) (fun _ => statePres_pure _ _)

theorem tc_tokAt (i : Nat) : StatePres PState.typeContext (tokAt i) := by
  unfold tokAt
  refine statePres_bind (tc_getTokenQ i) (fun a => ?_)
  cases a with
  | none => exact statePres_throw _ _
  | some t => exact statePres_pure _ _

theorem tc_addNode (n : TreeNode) : StatePres PState.typeContext (addNode n) :=
  statePres_modify _ _ (fun _ => rfl)

theorem tc_hasAhead (ty : TokenType) : StatePres PState.typeContext (hasAhead ty) := by
  unfold hasAhead
  refine statePres_bind tc_hasTokensLeft (fun b => ?_)
  refine statePres_ite (statePres_pure _ _) ?_
  refine statePres_bind (tc_tokAt 0) (fun t => ?_)
  refine statePres_ite ?_ (statePres_pure _ _)
  exact statePres_bind (statePres_modify _ _ (fun _ => rfl)) (fun _ => statePres_pure _ _)

theorem tc_skipSpacesFrom (j : Nat) : StatePres PState.typeContext (skipSpacesFrom j) := by
  unfold skipSpacesFrom
  refine statePres_bind (statePres_get _) (fun s => ?_)
  cases countSpacesStrict (s.tokens.drop (s.tokenIndex + j)) with
  | error e => exact statePres_throw _ _
  | ok n => exact statePres_pure _ _

theorem tc_seqLoop (ig : Bool) (pat : List TokenType) (j : Nat) :
    StatePres PState.typeContext (seqLoop ig pat j) := by
  induction pat generalizing j with
  | nil => exact statePres_pure _ _
  | cons p ps ih =>
    have hjp : ∀ j' : Nat, StatePres PState.typeContext (do
        let t ← tokAt j'
        if t.type = p then seqLoop ig ps (j' + 1) else pure none) := by
      intro j'
      refine statePres_bind (tc_tokAt j') (fun t => ?_)
      exact statePres_ite (ih _) (statePres_pure _ _)
    unfold seqLoop
    refine statePres_bind (statePres_get _) (fun s => ?_)
    refine statePres_ite ?_ (statePres_pure _ _)
    exact statePres_ite (statePres_bind (tc_skipSpacesFrom j) hjp)
      (statePres_bind (statePres_pure _ _) hjp)

theorem tc_hasSequenceAhead (pat : List TokenType) (ig : Bool) :
    StatePres PState.typeContext (hasSequenceAhead pat ig) := by
  unfold hasSequenceAhead
  refine statePres_bind (statePres_get _) (fun s => ?_)
  refine statePres_ite (statePres_pure _ _) ?_
  refine statePres_bind (tc_seqLoop ig pat 0) (fun r => ?_)
  cases r with
  | none => exact statePres_pure _ _
  | some j =>
    have hjp : ∀ j' : Nat, StatePres PState.typeContext (do
        modify fun st => { st with matched := some j' }
        (pure true : PM Bool)) := fun j' =>
      statePres_bind (statePres_modify _ _ (fun _ => rfl)) (fun _ => statePres_pure _ _)
    exact statePres_ite (statePres_bind (tc_skipSpacesFrom j) hjp)
      (statePres_bind (statePres_pure _ _) hjp)

theorem tc_hasOptionAhead (options : List TokenType) :
    StatePres PState.typeContext (hasOptionAhead options) := by
  induction options with
  | nil => exact statePres_pure _ _
  | cons o os ih =>
    unfold hasOptionAhead
    refine statePres_bind (tc_hasAhead o) (fun b => ?_)
    exact statePres_ite (statePres_pure _ _) ih

theorem tc_skipMatched : StatePres PState.typeContext skipMatched := by
  unfold skipMatched
  refine statePres_bind (statePres_get _) (fun s => ?_)
  cases s.matched with
  | none => exact statePres_throw _ _
  | some k => exact statePres_modify _ _ (fun _ => rfl)

theorem tc_findTokenFromOffset (offset : Nat) (ty : TokenType) :
    StatePres PState.typeContext (findTokenFromOffset offset ty) := by
  unfold findTokenFromOffset
  exact statePres_bind (statePres_get _) (fun _ => statePres_pure _ _)

theorem tc_rawOf (t? : Option Token) : StatePres PState.typeContext (rawOf t?) := by
  cases t? with
  | none => exact statePres_throw _ _
  | some t => exact statePres_pure _ _

theorem tc_getTokenOffsetNoSpaces (i : Nat) :
    StatePres PState.typeContext (getTokenOffsetNoSpaces i) := by
  unfold getTokenOffsetNoSpaces
  refine statePres_bind (statePres_get _) (fun s => ?_)
  cases firstNonSpace (s.tokens.drop (s.tokenIndex + i)) with
  | error e => exact statePres_throw _ _
  | ok t => exact statePres_pure _ _

theorem tc_parseInitialWhitespace :
    StatePres PState.typeContext parseInitialWhitespace := by
  unfold parseInitialWhitespace
  refine statePres_bind (statePres_get _) (fun s0 => ?_)
  refine statePres_bind (tc_hasAhead .Spaces) (fun b => ?_)
  have hjp1 : ∀ lvl : Nat, StatePres PState.typeContext (do
      let previous := (← get).indentLevel
      modify fun st => { st with indentLevel := lvl }
      (pure (previous, lvl, s0.tokenIndex) : PM (Nat × Nat × Nat))) := by
    intro lvl
    refine statePres_bind (statePres_get _) (fun s1 => ?_)
    exact statePres_bind (statePres_modify _ _ fun _ => rfl) (fun _ => statePres_pure _ _)
  have hjp2 : ∀ lvl : Nat, StatePres PState.typeContext (do
      modify fun st => { st with tokenIndex := st.tokenIndex + 1 }
      let y ← (pure lvl : PM Nat)
      let previous := (← get).indentLevel
      modify fun st => { st with indentLevel := y }
      (pure (previous, y, s0.tokenIndex) : PM (Nat × Nat × Nat))) := by
    intro lvl
    refine statePres_bind (statePres_modify _ _ fun _ => rfl) (fun _ => ?_)
    exact statePres_bind (statePres_pure _ _) hjp1
  refine statePres_ite ?_ (statePres_bind (statePres_pure _ _) hjp1)
  refine statePres_bind (tc_tokAt 0) (fun t => ?_)
  refine statePres_bind (statePres_get _) (fun s => ?_)
  refine statePres_ite ?_ ?_
  · exact statePres_bind (statePres_modify _ _ fun _ => rfl) (fun _ =>
      statePres_bind (statePres_pure _ _) hjp2)
  · exact statePres_bind (tc_jsAssert _ _) (fun _ =>
      statePres_bind (statePres_pure _ _) hjp2)

theorem tc_skipLineBreaks (fuel : Nat) : StatePres PState.typeContext (skipLineBreaks fuel) := by
  induction fuel with
  | zero => exact statePres_throw _ _
  | succ fuel ih =>
    unfold skipLineBreaks
    refine statePres_bind (tc_hasAhead .LineBreak) (fun b => ?_)
    refine statePres_ite ?_ (statePres_pure _ _)
    exact statePres_bind (statePres_modify _ _ (fun _ => rfl)) (fun _ => ih)

theorem tc_collectToLineBreak (fuel : Nat) :
    StatePres PState.typeContext (collectToLineBreak fuel) := by
  induction fuel with
  | zero => exact statePres_throw _ _
  | succ fuel ih =>
    unfold collectToLineBreak
    refine statePres_bind tc_hasTokensLeft (fun b => ?_)
    refine statePres_ite (statePres_pure _ _) ?_
    refine statePres_bind (tc_tokAt 0) (fun t => ?_)
    refine statePres_ite (statePres_pure _ _) ?_
    exact statePres_bind (statePres_modify _ _ (fun _ => rfl)) (fun _ => statePres_map _ ih)

theorem tc_parseAssignmentExpression (fuel : Nat) (word : Token) :
    StatePres PState.typeContext (parseAssignmentExpression fuel word) := by
  unfold parseAssignmentExpression
  exact statePres_bind (tc_collectToLineBreak fuel) (fun e => tc_addNode _)

theorem tc_parseParameterized (fuel : Nat) :
    StatePres PState.typeContext (parseParameterized fuel) := by
  induction fuel with
  | zero => exact statePres_throw _ _
  | succ fuel ih =>
    unfold parseParameterized
    refine statePres_bind (tc_hasAhead .CloseParen) (fun b => ?_)
    refine statePres_ite ?_ ?_
    · exact statePres_bind (statePres_modify _ _ (fun _ => rfl)) (fun _ => statePres_pure _ _)
    · refine statePres_bind tc_hasTokensLeft (fun b2 => ?_)
      refine statePres_bind (tc_jsAssert _ _) (fun _ => ?_)
      refine statePres_bind (tc_hasOptionAhead _) (fun b3 => ?_)
      refine statePres_ite ?_ ?_
      · refine statePres_bind (tc_tokAt 0) (fun t => ?_)
        exact statePres_bind (statePres_modify _ _ (fun _ => rfl)) (fun _ => statePres_map _ ih)
      · refine statePres_bind (tc_hasOptionAhead _) (fun b4 => ?_)
        refine statePres_ite ?_ ?_
        · exact statePres_bind (statePres_modify _ _ (fun _ => rfl)) (fun _ => ih)
        · exact statePres_bind (tc_tokAt 0) (fun t => statePres_throw _ _)

theorem tc_parseTypeDeclaration (fuel : Nat) (word : Token) :
    StatePres PState.typeContext (parseTypeDeclaration fuel word) := by
  unfold parseTypeDeclaration
  refine statePres_bind (tc_parseParameterized fuel) (fun d => ?_)
  refine statePres_bind (tc_jsAssert _ _) (fun _ => ?_)
  refine statePres_ite ?_ ?_
  · exact statePres_bind (statePres_pure _ _) (fun _ => tc_addNode _)
  · exact statePres_bind (statePres_modify _ _ (fun _ => rfl)) (fun _ => tc_addNode _)

theorem tc_parseMethodEvaluation (fuel : Nat) (word : Token) :
    StatePres PState.typeContext (parseMethodEvaluation fuel word) := by
  unfold parseMethodEvaluation
  exact statePres_bind (tc_parseParameterized fuel) (fun p => tc_addNode _)

theorem tc_parseHeadExpression (fuel : Nat) :
    StatePres PState.typeContext (parseHeadExpression fuel) := by
  unfold parseHeadExpression
  refine statePres_bind (tc_hasSequenceAhead _ _) (fun b => ?_)
  refine statePres_ite ?_ ?_
  · refine statePres_bind (tc_tokAt 0) (fun w => ?_)
    refine statePres_bind (statePres_get _) (fun s => ?_)
    refine statePres_bind tc_skipMatched (fun _ => ?_)
    refine statePres_ite ?_ ?_
    · exact statePres_bind (tc_parseTypeDeclaration fuel w) (fun _ => statePres_pure _ _)
    · exact statePres_bind (tc_parseMethodEvaluation fuel w) (fun _ => statePres_pure _ _)
  · refine statePres_bind (tc_hasSequenceAhead _ _) (fun b2 => ?_)
    refine statePres_ite ?_ (statePres_pure _ _)
    refine statePres_bind (tc_tokAt 0) (fun w => ?_)
    refine statePres_bind tc_skipMatched (fun _ => ?_)
    exact statePres_bind (tc_parseAssignmentExpression fuel w) (fun _ => statePres_pure _ _)

theorem tc_parseMutable (fuel : Nat) : StatePres PState.typeContext (parseMutable fuel) := by
  unfold parseMutable
  refine statePres_bind (tc_hasSequenceAhead _ _) (fun b => ?_)
  refine statePres_bind (tc_jsAssert _ _) (fun _ => ?_)
  refine statePres_bind tc_skipMatched (fun _ => ?_)
  refine statePres_bind (tc_parseHeadExpression fuel) (fun b2 => ?_)
  refine statePres_bind (tc_jsAssert _ _) (fun _ => ?_)
  refine statePres_bind (statePres_get _) (fun s => ?_)
  cases s.nodes.getLast? with
  | none => exact statePres_throw _ _
  | some n =>
    cases n with
    | declaration dtype declared m => exact statePres_modify _ _ (fun _ => rfl)
    | comment t => exact statePres_throw _ _
    | assignment v e => exact statePres_throw _ _
    | structureNode nm c => exact statePres_throw _ _
    | methodDeclaration nm p r c => exact statePres_throw _ _
    | methodCall m p => exact statePres_throw _ _
    | passNode => exact statePres_throw _ _
    | defaultDefine nm d => exact statePres_throw _ _
    | defineNode nm v => exact statePres_throw _ _
    | setMode nm m => exact statePres_throw _ _
    | repeatNode c ch => exact statePres_throw _ _
    | returnNode e => exact statePres_throw _ _
    | undef => exact statePres_throw _ _

theorem tc_parseComment : StatePres PState.typeContext parseComment := by
  unfold parseComment
  refine statePres_bind (tc_tokAt 0) (fun t => ?_)
  exact statePres_bind (tc_addNode _) (fun _ => statePres_modify _ _ (fun _ => rfl))

theorem tc_parsePass : StatePres PState.typeContext parsePass := by
  unfold parsePass
  exact statePres_bind (statePres_modify _ _ (fun _ => rfl)) (fun _ => tc_addNode _)

theorem tc_parseKeywordEquals (name : String) :
    StatePres PState.typeContext (parseKeywordEquals name) := by
  unfold parseKeywordEquals
  refine statePres_bind (tc_hasSequenceAhead _ _) (fun b => ?_)
  refine statePres_bind (tc_jsAssert _ _) (fun _ => ?_)
  refine statePres_bind (tc_findTokenFromOffset 1 .Word) (fun t? => ?_)
  refine statePres_bind (tc_rawOf t?) (fun k => ?_)
  refine statePres_bind tc_skipMatched (fun _ => ?_)
  refine statePres_bind (tc_tokAt 0) (fun t => ?_)
  exact statePres_bind (statePres_modify _ _ (fun _ => rfl)) (fun _ => statePres_pure _ _)

theorem tc_parseDefault : StatePres PState.typeContext parseDefault := by
  unfold parseDefault
  exact statePres_bind (tc_parseKeywordEquals _) (fun p => tc_addNode _)

theorem tc_parseDefine : StatePres PState.typeContext parseDefine := by
  unfold parseDefine
  exact statePres_bind (tc_parseKeywordEquals _) (fun p => tc_addNode _)

theorem tc_parseSetMode (fuel : Nat) : StatePres PState.typeContext (parseSetMode fuel) := by
  unfold parseSetMode
  refine statePres_bind (tc_hasSequenceAhead _ _) (fun b => ?_)
  refine statePres_bind (tc_jsAssert _ _) (fun _ => ?_)
  refine statePres_bind (tc_findTokenFromOffset 1 .Word) (fun t? => ?_)
  refine statePres_bind (tc_rawOf t?) (fun nm => ?_)
  refine statePres_bind tc_skipMatched (fun _ => ?_)
  exact statePres_bind (tc_parseParameterized fuel) (fun m => tc_addNode _)

theorem tc_repeatCollect (fuel : Nat) : StatePres PState.typeContext (repeatCollect fuel) := by
  induction fuel with
  | zero => exact statePres_throw _ _
  | succ fuel ih =>
    unfold repeatCollect
    refine statePres_bind tc_hasTokensLeft (fun b => ?_)
    refine statePres_ite (statePres_pure _ _) ?_
    refine statePres_bind (tc_hasSequenceAhead _ _) (fun b2 => ?_)
    refine statePres_ite (statePres_pure _ _) ?_
    refine statePres_bind (tc_tokAt 0) (fun t => ?_)
    exact statePres_bind (statePres_modify _ _ (fun _ => rfl)) (fun _ => statePres_map _ ih)

theorem tc_parseReturn (fuel : Nat) : StatePres PState.typeContext (parseReturn fuel) := by
  unfold parseReturn
  refine statePres_bind (statePres_modify _ _ (fun _ => rfl)) (fun _ => ?_)
  exact statePres_bind (tc_collectToLineBreak fuel) (fun e => tc_addNode _)


theorem tc_parseMutual : ∀ fuel : Nat,
    (∀ ext minLevel, StatePres PState.typeContext (parse ext fuel minLevel)) ∧
    (∀ ext minLevel, StatePres PState.typeContext (parseStep ext fuel minLevel)) ∧
    (∀ ext, StatePres PState.typeContext (parseStructure ext fuel)) ∧
    (∀ ext, StatePres PState.typeContext (parseMethodDeclaration ext fuel)) ∧
    (∀ ext, StatePres PState.typeContext (parseRepeat ext fuel)) ∧
    (∀ ext baseLevel, StatePres PState.typeContext (descendParse ext fuel baseLevel)) := by
  intro fuel
  induction fuel with
  | zero =>
    exact ⟨fun _ _ => statePres_throw _ _, fun _ _ => statePres_throw _ _,
           fun _ => statePres_throw _ _, fun _ => statePres_throw _ _,
           fun _ => statePres_throw _ _, fun _ _ => statePres_throw _ _⟩
  | succ fuel ih =>
    obtain ⟨ihParse, ihStep, ihStruct, ihMethod, ihRepeat, ihDescend⟩ := ih
    refine ⟨?_, ?_, ?_, ?_, ?_, ?_⟩
    · -- parse
      intro ext minLevel
      unfold parse
      refine statePres_bind tc_hasTokensLeft (fun b => ?_)
      refine statePres_ite ?_ ?_
      · refine statePres_bind (statePres_get _) (fun s0 => ?_)
        refine statePres_bind (ihStep ext minLevel) (fun d => ?_)
        refine statePres_bind (statePres_get _) (fun s1 => ?_)
        refine statePres_bind (tc_jsAssert _ _) (fun _ => ?_)
        refine statePres_ite ?_ (ihParse ext minLevel)
        exact statePres_bind (statePres_get _) (fun s2 => statePres_pure _ _)
      · exact statePres_bind (statePres_get _) (fun s2 => statePres_pure _ _)
    · -- parseStep
      intro ext minLevel
      unfold parseStep
      refine statePres_bind (tc_skipLineBreaks fuel) (fun _ => ?_)
      refine statePres_bind tc_hasTokensLeft (fun b => ?_)
      refine statePres_ite (statePres_pure _ _) ?_
      refine statePres_bind (statePres_get _) (fun s0 => ?_)
      refine statePres_bind tc_parseInitialWhitespace (fun triple => ?_)
      obtain ⟨p1, p2, oldIndex⟩ := triple
      dsimp only
      refine statePres_bind tc_hasTokensLeft (fun b2 => ?_)
      refine statePres_ite (statePres_pure _ _) ?_
      refine statePres_bind (statePres_get _) (fun s1 => ?_)
      refine statePres_ite ?_ ?_
      · exact statePres_bind (statePres_modify _ _ fun _ => rfl) (fun _ => statePres_pure _ _)
      · refine statePres_bind (tc_hasAhead .Comment) (fun bc => ?_)
        refine statePres_ite (statePres_bind tc_parseComment (fun _ => statePres_pure _ _)) ?_
        refine statePres_bind (tc_hasAhead .Keyword) (fun bk => ?_)
        refine statePres_ite ?_ ?_
        · refine statePres_bind (tc_tokAt 0) (fun t => ?_)
          refine statePres_ite (statePres_bind (ihStruct ext) (fun _ => statePres_pure _ _)) ?_
          refine statePres_ite (statePres_bind (ihMethod ext) (fun _ => statePres_pure _ _)) ?_
          refine statePres_ite (statePres_bind tc_parsePass (fun _ => statePres_pure _ _)) ?_
          refine statePres_ite (statePres_bind tc_parseDefault (fun _ => statePres_pure _ _)) ?_
          refine statePres_ite (statePres_bind tc_parseDefine (fun _ => statePres_pure _ _)) ?_
          refine statePres_ite (statePres_bind (tc_parseSetMode fuel) (fun _ => statePres_pure _ _)) ?_
          refine statePres_ite (statePres_bind (tc_parseMutable fuel) (fun _ => statePres_pure _ _)) ?_
          refine statePres_ite (statePres_bind (ihRepeat ext) (fun _ => statePres_pure _ _)) ?_
          refine statePres_ite (statePres_bind (tc_parseReturn fuel) (fun _ => statePres_pure _ _)) ?_
          exact statePres_bind (statePres_throw _ _) (fun _ => statePres_pure _ _)
        · refine statePres_bind (tc_parseHeadExpression fuel) (fun ok => ?_)
          refine statePres_ite (statePres_pure _ _) ?_
          refine statePres_bind (tc_getTokenQ 0) (fun t? => ?_)
          exact statePres_throw _ _
    · -- parseStructure
      intro ext
      unfold parseStructure
      refine statePres_bind (tc_hasSequenceAhead _ _) (fun b => ?_)
      refine statePres_bind (tc_jsAssert _ _) (fun _ => ?_)
      refine statePres_bind (tc_findTokenFromOffset 1 .Word) (fun t? => ?_)
      refine statePres_bind (tc_rawOf t?) (fun name => ?_)
      refine statePres_bind tc_skipMatched (fun _ => ?_)
      refine statePres_bind (tc_hasAhead .LineBreak) (fun b2 => ?_)
      refine statePres_bind (tc_jsAssert _ _) (fun _ => ?_)
      refine statePres_bind (statePres_modify _ _ fun _ => rfl) (fun _ => ?_)
      refine statePres_bind tc_parseInitialWhitespace (fun info => ?_)
      refine statePres_bind (ihStep ext 0) (fun _ => ?_)
      refine statePres_bind (statePres_get _) (fun s => ?_)
      exact statePres_bind (statePres_modify _ _ fun _ => rfl) (fun _ => tc_addNode _)
    · -- parseMethodDeclaration
      intro ext
      have hjp3 : ∀ (methodName : String) (parameters : List Token)
          (returnType : Option String), StatePres PState.typeContext (do
          jsAssert (← hasAhead .Colon) "Expected colon following METHOD argument list"
          modify fun s => { s with tokenIndex := s.tokenIndex + 1 }
          let baseLevel := (← get).indentLevel
          jsAssert (decide (baseLevel = 0)) "Can only have method declarations at base level"
          let children ← descendParse ext fuel baseLevel
          addNode (.methodDeclaration methodName parameters returnType children)) := by
        intro mn ps rt
        refine statePres_bind (tc_hasAhead .Colon) (fun c => ?_)
        refine statePres_bind (tc_jsAssert _ _) (fun _ => ?_)
        refine statePres_bind (statePres_modify _ _ fun _ => rfl) (fun _ => ?_)
        refine statePres_bind (statePres_get _) (fun s => ?_)
        refine statePres_bind (tc_jsAssert _ _) (fun _ => ?_)
        refine statePres_bind (ihDescend ext _) (fun ch => ?_)
        exact tc_addNode _
      have hjp1 : ∀ (methodName : String) (parameters : List Token),
          StatePres PState.typeContext (do
          let returnType ←
            if ← hasAhead .ReturnTypeIndicator then do
              jsAssert (← hasSequenceAhead [.ReturnTypeIndicator, .Word])
                "Malformed return type indicator"
              let t ← getTokenOffsetNoSpaces 1
              skipMatched
              pure (some t.raw)
            else
              pure none
          jsAssert (← hasAhead .Colon) "Expected colon following METHOD argument list"
          modify fun s => { s with tokenIndex := s.tokenIndex + 1 }
          let baseLevel := (← get).indentLevel
          jsAssert (decide (baseLevel = 0)) "Can only have method declarations at base level"
          let children ← descendParse ext fuel baseLevel
          addNode (.methodDeclaration methodName parameters returnType children)) := by
        intro mn ps
        refine statePres_bind (tc_hasAhead .ReturnTypeIndicator) (fun b => ?_)
        refine statePres_ite ?_ (statePres_bind (statePres_pure _ _) (hjp3 mn ps))
        refine statePres_bind (tc_hasSequenceAhead _ _) (fun b2 => ?_)
        refine statePres_bind (tc_jsAssert _ _) (fun _ => ?_)
        refine statePres_bind (tc_getTokenOffsetNoSpaces 1) (fun t => ?_)
        refine statePres_bind tc_skipMatched (fun _ => ?_)
        exact statePres_bind (statePres_pure _ _) (hjp3 mn ps)
      have hjp0 : ∀ (hasParameters : Bool), ∀ _u : PUnit,
          StatePres PState.typeContext (do
          let methodName ← rawOf (← findTokenFromOffset 1 .Word)
          skipMatched
          let parameters ← if hasParameters then parseParameterized fuel else pure []
          let returnType ←
            if ← hasAhead .ReturnTypeIndicator then do
              jsAssert (← hasSequenceAhead [.ReturnTypeIndicator, .Word])
                "Malformed return type indicator"
              let t ← getTokenOffsetNoSpaces 1
              skipMatched
              pure (some t.raw)
            else
              pure none
          jsAssert (← hasAhead .Colon) "Expected colon following METHOD argument list"
          modify fun s => { s with tokenIndex := s.tokenIndex + 1 }
          let baseLevel := (← get).indentLevel
          jsAssert (decide (baseLevel = 0)) "Can only have method declarations at base level"
          let children ← descendParse ext fuel baseLevel
          addNode (.methodDeclaration methodName parameters returnType children)) := by
        intro hp _u
        refine statePres_bind (tc_findTokenFromOffset 1 .Word) (fun t? => ?_)
        refine statePres_bind (tc_rawOf t?) (fun mn => ?_)
        refine statePres_bind tc_skipMatched (fun _ => ?_)
        refine statePres_ite (statePres_bind (tc_parseParameterized fuel) (hjp1 mn))
          (statePres_bind (statePres_pure _ _) (hjp1 mn))
      unfold parseMethodDeclaration
      refine statePres_bind (tc_hasSequenceAhead _ _) (fun hasParameters => ?_)
      refine statePres_ite ?_ (statePres_bind (statePres_pure _ _) (hjp0 hasParameters))
      refine statePres_bind (tc_hasSequenceAhead _ _) (fun b => ?_)
      exact statePres_bind (tc_jsAssert _ _) (hjp0 hasParameters)
    · -- parseRepeat
      intro ext
      unfold parseRepeat
      refine statePres_bind (statePres_modify _ _ fun _ => rfl) (fun _ => ?_)
      refine statePres_bind (tc_repeatCollect fuel) (fun ce => ?_)
      refine statePres_bind tc_hasTokensLeft (fun b => ?_)
      refine statePres_bind (tc_jsAssert _ _) (fun _ => ?_)
      refine statePres_bind (tc_findTokenFromOffset 0 .Keyword) (fun t? => ?_)
      refine statePres_bind (tc_rawOf t?) (fun kw => ?_)
      refine statePres_bind (tc_jsAssert _ _) (fun _ => ?_)
      refine statePres_bind tc_skipMatched (fun _ => ?_)
      refine statePres_bind (statePres_get _) (fun s => ?_)
      refine statePres_bind (ihDescend ext _) (fun ch => ?_)
      exact tc_addNode _
    · -- descendParse
      intro ext baseLevel
      unfold descendParse
      refine statePres_bind (statePres_get _) (fun s0 => ?_)
      refine statePres_bind (ihParse ext _) (fun _ => ?_)
      refine statePres_bind (statePres_get _) (fun s1 => ?_)
      exact statePres_bind (statePres_modify _ _ fun _ => rfl) (fun _ => statePres_pure _ _)

/-- No parser run changes the type-name registry: `typeContext` is what
the constructor seeded. -/
theorem parse_typeContext_const (ext : Bool) (fuel minLevel : Nat) :
    StatePres PState.typeContext (parse ext fuel minLevel) :=
  (tc_parseMutual fuel).1 ext minLevel

theorem set_eq (v s : σ) : (set v : StateT σ (Except String) PUnit) s = .ok (⟨⟩, v) := rfl

theorem firstFreeIdx_app_true (a : Nat) (rest : List Bool) :
    firstFreeIdx (List.replicate a true ++ false :: rest) = some a := by
  induction a with
  | zero => simp [firstFreeIdx]
  | succ a ih => simp [List.replicate_succ, firstFreeIdx, ih]

theorem poolK_eq_cons (k : Nat) (hk : k < MAX_TEMPORARY_COUNT) :
    poolK k = List.replicate k true ++ false ::
      List.replicate (MAX_TEMPORARY_COUNT - k - 1) false := by
  unfold poolK
  have h : MAX_TEMPORARY_COUNT - k = (MAX_TEMPORARY_COUNT - k - 1) + 1 := by
    unfold MAX_TEMPORARY_COUNT at *
    omega
  rw [h, List.replicate_succ]
  simp

theorem firstFreeIdx_poolK (k : Nat) (hk : k < MAX_TEMPORARY_COUNT) :
    firstFreeIdx (poolK k) = some k := by
  rw [poolK_eq_cons k hk]
  exact firstFreeIdx_app_true k _

theorem firstFreeIdx_poolFull : firstFreeIdx (poolK MAX_TEMPORARY_COUNT) = none := by
  unfold poolK MAX_TEMPORARY_COUNT
  simp only [Nat.sub_self, List.replicate, List.append_nil]
  decide

theorem replicate_set_true (a : Nat) (rest : List Bool) :
    (List.replicate a true ++ false :: rest).set a true =
      List.replicate a true ++ true :: rest := by
  induction a with
  | zero => simp [List.set]
  | succ a ih => simp [List.replicate_succ, List.set, ih]

theorem poolK_set (k : Nat) (hk : k < MAX_TEMPORARY_COUNT) :
    (poolK k).set k true = poolK (k + 1) := by
  rw [poolK_eq_cons k hk, replicate_set_true]
  unfold poolK
  simp [List.replicate_succ', List.append_assoc, Nat.sub_sub]

theorem getTemporary_free (s : CSkel) (k : Nat) (ht : s.temporaries = poolK k)
    (hk : k < MAX_TEMPORARY_COUNT) :
    getTemporary s = .ok ("_temp_" ++ toString k, { s with temporaries := poolK (k + 1) }) := by
  unfold getTemporary
  rw [stExc_bind_ok (get_eq s), ht, firstFreeIdx_poolK k hk]
  dsimp only
  rw [stExc_bind_ok (set_eq _ _), pure_eq, poolK_set k hk]

theorem getTemporary_full (s : CSkel) (ht : s.temporaries = poolK MAX_TEMPORARY_COUNT) :
    getTemporary s = .error "No more temporaries available" := by
  unfold getTemporary
  rw [stExc_bind_ok (get_eq s), ht, firstFreeIdx_poolFull]
  rfl


theorem emit_eq (l : String) (s : CSkel) :
    emit l s = .ok (⟨⟩,
      { s with codeLines := s.codeLines ++ [String.mk (List.replicate s.emitLevel ' ') ++ l] }) := rfl

theorem emitGroupStart_eq (s : CSkel) :
    emitGroupStart s = .ok (⟨⟩, { s with emitLevel := s.emitLevel + s.indentCount }) := rfl

theorem emitGroupEnd_ok (s : CSkel) (h : s.indentCount ≤ s.emitLevel) :
    emitGroupEnd s = .ok (⟨⟩, { s with emitLevel := s.emitLevel - s.indentCount }) := by
  unfold emitGroupEnd
  rw [stExc_bind_ok (get_eq s), if_pos h, set_eq]

theorem skl_pass (lvl : Nat) (s : CSkel) :
    skeletonizeList [.passNode] lvl s = .ok (⟨⟩,
      { s with codeLines := s.codeLines ++
          [String.mk (List.replicate s.emitLevel ' ') ++ "//TODO:"] }) := rfl

theorem repeat_pass_step (cond : List Token) (lvl : Nat) (s : CSkel) (k : Nat)
    (ht : s.temporaries = poolK k) (hk : k < MAX_TEMPORARY_COUNT) :
    ∃ s', skeletonizeNode (.repeatNode cond [.passNode]) lvl s = .ok (⟨⟩, s') ∧
      s'.temporaries = poolK (k + 1) := by
  unfold skeletonizeNode
  rw [stExc_bind_ok (getTemporary_free s k ht hk)]
  rw [stExc_bind_ok (emit_eq _ _)]
  rw [stExc_bind_ok (emitGroupStart_eq _)]
  rw [stExc_bind_ok (skl_pass _ _)]
  rw [stExc_bind_ok (emitGroupEnd_ok _ (by simp))]
  rw [emit_eq]
  exact ⟨_, rfl, rfl⟩

theorem row_exhausts : ∀ (n k : Nat) (s : CSkel), s.temporaries = poolK k →
    k ≤ MAX_TEMPORARY_COUNT → MAX_TEMPORARY_COUNT < k + n →
    skeletonizeList (repeatRow n) 0 s = .error "No more temporaries available" := by
  intro n
  induction n with
  | zero =>
    intro k s ht hk hlt
    exact absurd hlt (by omega)
  | succ n ih =>
    intro k s ht hk hlt
    have hr : repeatRow (n + 1) =
        TreeNode.repeatNode [⟨.Number, "3"⟩] [.passNode] :: repeatRow n := by
      simp [repeatRow, List.replicate_succ]
    rw [hr]
    unfold skeletonizeList
    by_cases hfull : k = MAX_TEMPORARY_COUNT
    · subst hfull
      have hnode : skeletonizeNode (.repeatNode [⟨.Number, "3"⟩] [.passNode]) 0 s =
          .error "No more temporaries available" := by
        unfold skeletonizeNode
        exact stExc_bind_err (getTemporary_full s ht)
      exact stExc_bind_err hnode
    · have hklt : k < MAX_TEMPORARY_COUNT := lt_of_le_of_ne hk hfull
      obtain ⟨s', hstep, ht'⟩ := repeat_pass_step _ 0 s k ht hklt
      rw [stExc_bind_ok hstep]
      exact ih (k + 1) s' ht' (by omega) (by omega)

theorem tower_exhausts : ∀ (n k lvl : Nat) (s : CSkel), s.temporaries = poolK k →
    k ≤ MAX_TEMPORARY_COUNT → MAX_TEMPORARY_COUNT < k + n →
    skeletonizeNode (repeatTower n) lvl s = .error "No more temporaries available" := by
  intro n
  induction n with
  | zero =>
    intro k lvl s ht hk hlt
    exact absurd hlt (by omega)
  | succ n ih =>
    intro k lvl s ht hk hlt
    have hr : repeatTower (n + 1) =
        TreeNode.repeatNode [⟨.Number, "3"⟩] [repeatTower n] := rfl
    rw [hr]
    by_cases hfull : k = MAX_TEMPORARY_COUNT
    · subst hfull
      unfold skeletonizeNode
      exact stExc_bind_err (getTemporary_full s ht)
    · have hklt : k < MAX_TEMPORARY_COUNT := lt_of_le_of_ne hk hfull
      unfold skeletonizeNode
      rw [stExc_bind_ok (getTemporary_free s k ht hklt)]
      rw [stExc_bind_ok (emit_eq _ _)]
      rw [stExc_bind_ok (emitGroupStart_eq _)]
      refine stExc_bind_err ?_
      unfold skeletonizeList
      refine stExc_bind_err ?_
      refine ih (k + 1) (lvl + 1) _ ?_ (by omega) (by omega)
      rfl


theorem alookup_single (k : String) (v : α) : alookup k [(k, v)] = some v := by
  simp [alookup]

theorem aupdate_single (k : String) (v w : α) : aupdate k v [(k, w)] = [(k, v)] := by
  simp [aupdate]

theorem assertValidDefine_ok (M v : String) (di : DefineInfo) (s : CSkel)
    (hdi : alookup M s.defineInfo = some di) (hv : di.options.contains v = true) :
    assertValidDefine M v s = .ok (⟨⟩, s) := by
  unfold assertValidDefine
  rw [stExc_bind_ok (get_eq s), hdi]
  simp only [hv, if_true]
  rfl

theorem define_step (M v : String) (di : DefineInfo) (lvl : Nat) (s : CSkel)
    (hdi : alookup M s.defineInfo = some di) (hv : di.options.contains v = true) :
    skeletonizeNode (.defineNode M v) lvl s = .ok (⟨⟩,
      { s with
        headerLines := s.headerLines ++
          (match di.current with | some c => ["#undef " ++ c] | none => []) ++
          ["#define " ++ macroOf M v]
        defineInfo := aupdate M { di with current := some (macroOf M v) } s.defineInfo }) := by
  unfold skeletonizeNode
  rw [stExc_bind_ok (assertValidDefine_ok M v di s hdi hv)]
  rw [stExc_bind_ok (get_eq s), hdi]
  dsimp only
  rw [set_eq]
  simp [macroOf]

theorem setMode_step (M : String) (modes : List Token) (lvl : Nat) (s : CSkel) :
    skeletonizeNode (.setMode M modes) lvl s = .ok (⟨⟩,
      { s with
        defineInfo := aupdate M ⟨none, modes.map (fun t => t.raw)⟩ s.defineInfo
        headerLines := s.headerLines ++
          [setModeLine M (modes.map (fun t => t.raw))] }) := by
  unfold skeletonizeNode
  rw [modify_eq]
  simp [setModeLine, macroOf, List.map_map]

theorem defines_run (M : String) (opts : List String) :
    ∀ (vals : List String) (prev : String) (s : CSkel),
    s.defineInfo = [(M, ⟨some prev, opts⟩)] →
    (∀ v ∈ vals, opts.contains v = true) →
    skeletonizeList (vals.map (.defineNode M)) 0 s = .ok (⟨⟩,
      { s with
        headerLines := s.headerLines ++ defineBlock M prev vals
        defineInfo := [(M, ⟨some (lastMacro M prev vals), opts⟩)] }) := by
  intro vals
  induction vals with
  | nil =>
    intro prev s hdi _
    simp only [List.map_nil, defineBlock, lastMacro, List.append_nil]
    unfold skeletonizeList
    rw [pure_eq]
    rw [← hdi]

  | cons v vs ih =>
    intro prev s hdi hvals
    have hstep := define_step M v ⟨some prev, opts⟩ 0 s
      (by rw [hdi]; exact alookup_single _ _) (hvals v (by simp))
    simp only [List.map_cons]
    unfold skeletonizeList
    rw [stExc_bind_ok hstep]
    rw [ih (macroOf M v) _ (by
      show aupdate M _ s.defineInfo = _
      rw [hdi]
      exact aupdate_single _ _ _) (fun w hw => hvals w (by simp [hw]))]
    simp [defineBlock, lastMacro, List.append_assoc]

theorem lineMacro_define (m : String) : lineMacro ("#define " ++ m) = some (true, m) := by
  obtain ⟨d⟩ := m
  simp [lineMacro, String.data_append]

theorem lineMacro_undef (m : String) : lineMacro ("#undef " ++ m) = some (false, m) := by
  obtain ⟨d⟩ := m
  simp [lineMacro, String.data_append]

theorem lineMacro_setModeLine (M : String) (opts : List String) :
    lineMacro (setModeLine M opts) = none := by
  simp [lineMacro, setModeLine, String.data_append]

theorem activeStep_define (acc : List String) (m : String) :
    activeStep acc ("#define " ++ m) = if acc.contains m then acc else acc ++ [m] := by
  simp [activeStep, lineMacro_define]

theorem activeStep_undef (acc : List String) (m : String) :
    activeStep acc ("#undef " ++ m) = acc.filter (fun x => x ≠ m) := by
  simp [activeStep, lineMacro_undef]

theorem activeFold_block (M : String) : ∀ (vals : List String) (prev : String),
    (defineBlock M prev vals).foldl activeStep [prev] = [lastMacro M prev vals] := by
  intro vals
  induction vals with
  | nil => intro prev; simp [defineBlock, lastMacro]
  | cons v vs ih =>
    intro prev
    simp only [defineBlock, lastMacro, List.foldl_cons]
    rw [activeStep_undef]
    have h1 : List.filter (fun x => x ≠ prev) [prev] = ([] : List String) := by simp
    rw [h1, activeStep_define]
    simpa using ih (macroOf M v)

theorem getLast_lastMacro (M : String) : ∀ (vs : List String) (v : String),
    lastMacro M (macroOf M v) vs = macroOf M ((v :: vs).getLast (List.cons_ne_nil v vs)) := by
  intro vs
  induction vs with
  | nil => intro v; simp [lastMacro]
  | cons w ws ih =>
    intro v
    simp only [lastMacro]
    rw [ih w]
    rw [List.getLast_cons_cons]


/-- C5: for a tree holding a SetMode for mode `M` followed by a nonempty
run of Define nodes for `M` with valid options, the generated header
stream is the SetMode comment followed by a `#define` of the first value
and, for each later Define, an `#undef` of the previously active macro
immediately followed by the new `#define`; exactly one `#define` for `M`
is still active at the end — the macro of the last Define. -/
theorem claim_C5_mode_exclusivity (M : String) (opts vals : List String) (hne : vals ≠ [])
    (hvals : ∀ v ∈ vals, opts.contains v = true) :
    ∃ st, runSkeletonize (TreeNode.setMode M (opts.map (fun o => ⟨.Word, o⟩)) ::
        vals.map (.defineNode M)) = .ok st ∧
      st.headerLines = setModeLine M opts :: defineLines M vals ∧
      activeDefines st.headerLines = [macroOf M (vals.getLast hne)] := by
  obtain ⟨v1, vs, rfl⟩ : ∃ v1 vs, vals = v1 :: vs := by
    cases vals with
    | nil => exact absurd rfl hne
    | cons a l => exact ⟨a, l, rfl⟩
  have hopts : ((fun t => Token.raw t) ∘ fun o => ({ type := .Word, raw := o } : Token)) =
      fun o : String => o := by
    funext o
    rfl
  have h1 : skeletonizeNode (.setMode M (opts.map (fun o => ⟨.Word, o⟩))) 0 initCSkel =
      .ok (⟨⟩,
      { typeInfo := []
        defineInfo := [(M, ⟨none, opts⟩)]
        codeLines := []
        includeLines := ["#include <stdint.h>", "#define true (1)", "#define false (0)"]
        headerLines := [setModeLine M opts]
        emitLevel := 0
        indentCount := 4
        temporaries := List.replicate MAX_TEMPORARY_COUNT false
        typeMap := CTypeMap }) := by
    rw [setMode_step]
    simp only [List.map_map, hopts, initCSkel, aupdate]
    simp
  have h2 : skeletonizeNode (.defineNode M v1) 0
      ({ typeInfo := []
         defineInfo := [(M, ⟨none, opts⟩)]
         codeLines := []
         includeLines := ["#include <stdint.h>", "#define true (1)", "#define false (0)"]
         headerLines := [setModeLine M opts]
         emitLevel := 0
         indentCount := 4
         temporaries := List.replicate MAX_TEMPORARY_COUNT false
         typeMap := CTypeMap } : CSkel) =
      .ok (⟨⟩,
      { typeInfo := []
        defineInfo := [(M, ⟨some (macroOf M v1), opts⟩)]
        codeLines := []
        includeLines := ["#include <stdint.h>", "#define true (1)", "#define false (0)"]
        headerLines := [setModeLine M opts, "#define " ++ macroOf M v1]
        emitLevel := 0
        indentCount := 4
        temporaries := List.replicate MAX_TEMPORARY_COUNT false
        typeMap := CTypeMap }) := by
    rw [define_step M v1 ⟨none, opts⟩ 0 _ (alookup_single _ _) (hvals v1 (by simp))]
    simp [aupdate]
  have h3 := defines_run M opts vs (macroOf M v1)
    ({ typeInfo := []
       defineInfo := [(M, ⟨some (macroOf M v1), opts⟩)]
       codeLines := []
       includeLines := ["#include <stdint.h>", "#define true (1)", "#define false (0)"]
       headerLines := [setModeLine M opts, "#define " ++ macroOf M v1]
       emitLevel := 0
       indentCount := 4
       temporaries := List.replicate MAX_TEMPORARY_COUNT false
       typeMap := CTypeMap } : CSkel)
    rfl (fun w hw => hvals w (by simp [hw]))
  unfold runSkeletonize
  simp only [StateT.run]
  unfold skeletonizeList
  rw [stExc_bind_ok h1]
  simp only [List.map_cons]
  unfold skeletonizeList
  rw [stExc_bind_ok h2]
  rw [h3]
  refine ⟨_, rfl, ?_, ?_⟩
  · simp [defineLines]
  · show activeDefines
        ([setModeLine M opts, "#define " ++ macroOf M v1] ++ defineBlock M (macroOf M v1) vs) =
      _
    unfold activeDefines
    simp only [List.cons_append, List.nil_append, List.foldl_cons]
    rw [show activeStep [] (setModeLine M opts) = [] from by
      simp [activeStep, lineMacro_setModeLine]]
    rw [activeStep_define]
    simp only [List.contains_nil, Bool.false_eq_true, if_false, List.nil_append]
    rw [activeFold_block, getLast_lastMacro]


/-- Witness for C5 at `SETMODE LEVEL(LOW, HIGH)`, `DEFINE LEVEL=LOW`,
`DEFINE LEVEL=HIGH`. -/
theorem claim_C5_mode_exclusivity_witness :
    (["LOW", "HIGH"] ≠ ([] : List String)) ∧
    (∃ st, runSkeletonize (TreeNode.setMode "LEVEL"
        (["LOW", "HIGH"].map (fun o => ⟨.Word, o⟩)) ::
        ["LOW", "HIGH"].map (.defineNode "LEVEL")) = .ok st ∧
      st.headerLines = setModeLine "LEVEL" ["LOW", "HIGH"] ::
        defineLines "LEVEL" ["LOW", "HIGH"] ∧
      activeDefines st.headerLines =
        [macroOf "LEVEL" (["LOW", "HIGH"].getLast (by decide))]) :=
  ⟨by decide, claim_C5_mode_exclusivity "LEVEL" ["LOW", "HIGH"] ["LOW", "HIGH"]
    (by decide) (by decide)⟩

/-- C6: the first Repeat renders its loop with `_temp_0` (the
lowest-indexed free pool slot), and — since no generation path releases a
temporary — any tree of more than `MAX_TEMPORARY_COUNT = 10` Repeat
loops, whether nested (`repeatTower`) or siblings (`repeatRow`), fails
generation with the pool-exhaustion error even though each loop by itself
is valid. -/
theorem claim_C6_temporary_pool :
    (runSkeletonize [.repeatNode [⟨.Number, "3"⟩] [.passNode]]).map (fun st => st.codeLines) =
      .ok ["for(int _temp_0 = 0; _temp_0 < 3; _temp_0++) \x7b", "    //TODO:", "\x7d"] ∧
    (∀ n, MAX_TEMPORARY_COUNT < n →
      skeletonize (repeatRow n) = .error "No more temporaries available") ∧
    (∀ n, MAX_TEMPORARY_COUNT < n →
      skeletonize [repeatTower n] = .error "No more temporaries available") := by
  refine ⟨rfl, ?_, ?_⟩
  · intro n hn
    unfold skeletonize runSkeletonize
    simp only [StateT.run]
    rw [row_exhausts n 0 initCSkel rfl (by decide) (by omega)]
    rfl
  · intro n hn
    unfold skeletonize runSkeletonize
    simp only [StateT.run]
    have hrow : skeletonizeList [repeatTower n] 0 initCSkel =
        .error "No more temporaries available" := by
      unfold skeletonizeList
      exact stExc_bind_err (tower_exhausts n 0 0 initCSkel rfl (by decide) (by omega))
    rw [hrow]
    rfl

/-- Witness for C6 at 11 sibling and 11 nested Repeat loops. -/
theorem claim_C6_temporary_pool_witness :
    (MAX_TEMPORARY_COUNT < 11 ∧
      skeletonize (repeatRow 11) = .error "No more temporaries available") ∧
    skeletonize [repeatTower 11] = .error "No more temporaries available" :=
  ⟨⟨by decide, claim_C6_temporary_pool.2.1 11 (by decide)⟩,
   claim_C6_temporary_pool.2.2 11 (by decide)⟩

theorem concatRaws_cons (t : Token) (ts : List Token) :
    (concatRaws (t :: ts)).data = t.raw.data ++ (concatRaws ts).data := by
  simp [concatRaws, String.data_append]

theorem tokenizeF_concat : ∀ (fuel : Nat) (cs : List Char) (ts : List Token),
    tokenizeF fuel cs = .ok ts → (concatRaws ts).data = cs := by
  intro fuel
  induction fuel with
  | zero =>
    intro cs ts h
    simp [tokenizeF] at h
  | succ fuel ih =>
    intro cs ts h
    cases cs with
    | nil =>
      simp only [tokenizeF] at h
      cases h
      rfl
    | cons c cs' =>
      simp only [tokenizeF] at h
      cases hm : firstMatch (c :: cs') with
      | none =>
        rw [hm] at h
        cases h
      | some p =>
        obtain ⟨k, ty⟩ := p
        rw [hm] at h
        dsimp only at h
        by_cases hk : k = 0
        · rw [if_pos hk] at h
          cases h
        · rw [if_neg hk] at h
          by_cases hmix : ty = .Spaces ∧ ' ' ∈ (c :: cs').take k ∧ '\t' ∈ (c :: cs').take k
          · rw [if_pos hmix] at h
            cases h
          · rw [if_neg hmix] at h
            cases hr : tokenizeF fuel ((c :: cs').drop k) with
            | error e =>
              rw [hr] at h
              cases h
            | ok ts' =>
              rw [hr] at h
              simp only [Except.map] at h
              cases h
              rw [concatRaws_cons]
              have hrec := ih _ _ hr
              rw [hrec]
              exact List.take_append_drop k (c :: cs')

/-- C2: whenever `tokenize` returns normally, concatenating the raw text
of the returned tokens in order reproduces the input exactly. -/
theorem claim_C2_lexing_roundtrip (s : String) (ts : List Token)
    (h : tokenizeStr s = .ok ts) : concatRaws ts = s := by
  have hd : (concatRaws ts).data = s.data := tokenizeF_concat (s.data.length + 1) s.data ts h
  cases hs : s with
  | mk d =>
    rw [hs] at hd
    cases hcr : concatRaws ts with
    | mk d2 =>
      rw [hcr] at hd
      exact congrArg String.mk (by simpa using hd)

/-- Witness for C2 at the source `Int(x)`. -/
theorem claim_C2_lexing_roundtrip_witness :
    tokenizeStr "Int(x)" = .ok
      [⟨.Word, "Int"⟩, ⟨.OpenParen, "("⟩, ⟨.Word, "x"⟩, ⟨.CloseParen, ")"⟩] ∧
    concatRaws [⟨.Word, "Int"⟩, ⟨.OpenParen, "("⟩, ⟨.Word, "x"⟩, ⟨.CloseParen, ")"⟩] =
      "Int(x)" :=
  ⟨rfl, claim_C2_lexing_roundtrip "Int(x)" _ rfl⟩

/-! ### Single-step equations for the parser's primitives -/

theorem getTokenOffset_eq (i : Nat) (s : PState) :
    getToken? i s = .ok (s.tokens[s.tokenIndex + i]?, s) := rfl

theorem tokAt_eq {s : PState} {t : Token} {i : Nat}
    (h : s.tokens[s.tokenIndex + i]? = some t) : tokAt i s = .ok (t, s) := by
  unfold tokAt
  rw [stExc_bind_ok (getTokenOffset_eq i s), h]
  rfl

theorem hasTokensLeft_pos {s : PState} (h : s.tokenIndex < s.tokens.length) :
    hasTokensLeft s = .ok (true, s) := by
  unfold hasTokensLeft
  rw [stExc_bind_ok (get_eq s), pure_eq, decide_eq_true h]

theorem getElem?_lt {l : List α} {i : Nat} {a : α} (h : l[i]? = some a) :
    i < l.length := by
  by_contra hge
  rw [List.getElem?_eq_none (by omega)] at h
  cases h

theorem hasAhead_pos {s : PState} {t : Token} {ty : TokenType}
    (htok : s.tokens[s.tokenIndex]? = some t) (hty : t.type = ty) :
    hasAhead ty s = .ok (true, { s with matched := some 1 }) := by
  have hlt : s.tokenIndex < s.tokens.length := getElem?_lt htok
  unfold hasAhead
  rw [stExc_bind_ok (hasTokensLeft_pos hlt)]
  rw [Bool.not_true, if_neg (by simp)]
  rw [stExc_bind_ok (tokAt_eq (i := 0) htok)]
  rw [if_pos hty]
  rfl

theorem tokAt0_eq {s : PState} {t : Token}
    (h : s.tokens[s.tokenIndex]? = some t) : tokAt 0 s = .ok (t, s) :=
  tokAt_eq (i := 0) (by rw [Nat.add_zero]; exact h)

theorem jsAssert_true {P : Prop} [Decidable P] (hp : P) (msg : String)
    (s : PState) : jsAssert (decide P) msg s = .ok (⟨⟩, s) := by
  unfold jsAssert
  rw [decide_eq_true hp]
  rfl

theorem jsAssert_false {P : Prop} [Decidable P] (hp : ¬ P) (msg : String)
    (s : PState) : jsAssert (decide P) msg s = .error msg := by
  unfold jsAssert
  rw [decide_eq_false hp]
  rfl

/-! ### The C9 lookahead guard -/

/-- C9: `hasSequenceAhead`'s initial guard rejects any pattern whose length
plus the cursor position reaches the token count, before examining a single
token; consequently a source whose final tokens are the keyword STRUCTURE, a
name and a colon (with nothing after them) is rejected as a malformed
STRUCTURE command even though the remaining tokens match the required
pattern exactly. -/
theorem claim_C9_lookahead_guard :
    (∀ (toMatch : List TokenType) (ig : Bool) (s : PState), toMatch ≠ [] →
        s.tokens.length ≤ toMatch.length + s.tokenIndex →
        hasSequenceAhead toMatch ig s = .ok (false, s)) ∧
    makeTree [⟨.Keyword, "STRUCTURE"⟩, ⟨.Word, "Foo"⟩, ⟨.Colon, ":"⟩] =
      .error "Malformed STRUCTURE command" := by
  constructor
  · intro toMatch ig s _ hlen
    unfold hasSequenceAhead
    rw [stExc_bind_ok (get_eq s), if_pos hlen]
    rfl
  · rfl

/-- The C9 guard fact at a concrete cursor: the pattern a STRUCTURE header
needs, sitting exactly at the end of the token list, is reported absent. -/
theorem claim_C9_lookahead_guard_witness :
    hasSequenceAhead [.Keyword, .Word, .Colon] true
        (initPState [⟨.Keyword, "STRUCTURE"⟩, ⟨.Word, "Foo"⟩, ⟨.Colon, ":"⟩]) =
      .ok (false, initPState [⟨.Keyword, "STRUCTURE"⟩, ⟨.Word, "Foo"⟩, ⟨.Colon, ":"⟩]) :=
  claim_C9_lookahead_guard.1 [.Keyword, .Word, .Colon] true _ (by decide) (by decide)

/-! ### C8: keyword matching is case-sensitive -/

/-- C8: `KeywordRegex` carries no ignore-case flag, so only the all-uppercase
spelling of a reserved word lexes as a Keyword; a lowercase spelling such as
`pass` lexes as a plain Word, and the parser then rejects the line as an
unhandled token instead of parsing the construct (the not-all-uppercase
warning branch in parseStep is unreachable). -/
theorem claim_C8_keyword_case_sensitive :
    tokenizeStr "PASS\n" = .ok [⟨.Keyword, "PASS"⟩, ⟨.LineBreak, "\n"⟩] ∧
    makeTree [⟨.Keyword, "PASS"⟩, ⟨.LineBreak, "\n"⟩] = .ok [.passNode] ∧
    tokenizeStr "pass\n" = .ok [⟨.Word, "pass"⟩, ⟨.LineBreak, "\n"⟩] ∧
    makeTree [⟨.Word, "pass"⟩, ⟨.LineBreak, "\n"⟩] =
      .error "Unhandled token: Token(type: Symbol(TokenTypes.Word), raw: \"pass\")" :=
  ⟨rfl, rfl, rfl, rfl⟩

/-! ### C1: the indentation unit is re-established at level 0 -/

/-- C1 counterexample: the indentation unit is NOT fixed for the whole run.
The first run `"  "` establishes delta 2, but after a line at level 0 the
next run `"   "` of length 3 — not a multiple of 2 — is accepted silently
and re-establishes delta 3: the parse succeeds with three Pass nodes and a
final `indent.delta` of 3. -/
theorem claim_C1_counterexample :
    tokenizeStr "  PASS\nPASS\n   PASS\n" = .ok
      [⟨.Spaces, "  "⟩, ⟨.Keyword, "PASS"⟩, ⟨.LineBreak, "\n"⟩,
       ⟨.Keyword, "PASS"⟩, ⟨.LineBreak, "\n"⟩,
       ⟨.Spaces, "   "⟩, ⟨.Keyword, "PASS"⟩, ⟨.LineBreak, "\n"⟩] ∧
    "  ".length = 2 ∧ "   ".length = 3 ∧
    ((parse false
        (parseFuel [⟨.Spaces, "  "⟩, ⟨.Keyword, "PASS"⟩, ⟨.LineBreak, "\n"⟩,
          ⟨.Keyword, "PASS"⟩, ⟨.LineBreak, "\n"⟩,
          ⟨.Spaces, "   "⟩, ⟨.Keyword, "PASS"⟩, ⟨.LineBreak, "\n"⟩]) 0).run
        (initPState [⟨.Spaces, "  "⟩, ⟨.Keyword, "PASS"⟩, ⟨.LineBreak, "\n"⟩,
          ⟨.Keyword, "PASS"⟩, ⟨.LineBreak, "\n"⟩,
          ⟨.Spaces, "   "⟩, ⟨.Keyword, "PASS"⟩, ⟨.LineBreak, "\n"⟩])).map
      (fun p => (p.1, p.2.indentDelta)) =
      .ok ([.passNode, .passNode, .passNode], 3) ∧
    ¬ (3 % 2 = 0) :=
  ⟨rfl, rfl, rfl, rfl, by decide⟩

/-- C1 (amended): what `parseInitialWhitespace` actually guarantees when a
Spaces run of raw text `w` is at the cursor.  If the CURRENT indent level is
0 the run re-establishes `indent.delta` to the run's length (no multiple
check); only at a nonzero current level must the length be a multiple of the
current nonzero delta — the level becoming length/delta and delta staying
unchanged — with the indentation error otherwise. -/
theorem claim_C1_amended (s : PState) (w : String)
    (htok : s.tokens[s.tokenIndex]? = some ⟨.Spaces, w⟩) :
    (s.indentLevel = 0 →
      parseInitialWhitespace s = .ok ((0, 1, s.tokenIndex),
        { s with matched := some 1, indentDelta := w.length,
                 tokenIndex := s.tokenIndex + 1, indentLevel := 1 })) ∧
    (s.indentLevel ≠ 0 → s.indentDelta ≠ 0 → w.length % s.indentDelta = 0 →
      parseInitialWhitespace s = .ok
        ((s.indentLevel, w.length / s.indentDelta, s.tokenIndex),
         { s with matched := some 1, tokenIndex := s.tokenIndex + 1,
                  indentLevel := w.length / s.indentDelta })) ∧
    (s.indentLevel ≠ 0 → ¬ (s.indentDelta ≠ 0 ∧ w.length % s.indentDelta = 0) →
      parseInitialWhitespace s =
        .error ("Improper indentation: Expected a multiple of " ++
          toString s.indentDelta ++ " space(s).")) := by
  refine ⟨?_, ?_, ?_⟩
  · intro h0
    obtain ⟨ti, toks, lvl, delta, ctx, vt, m, nds⟩ := s
    change lvl = 0 at h0
    subst h0
    unfold parseInitialWhitespace
    rw [stExc_bind_ok (get_eq _)]
    rw [stExc_bind_ok (hasAhead_pos (s := ⟨ti, toks, 0, delta, ctx, vt, m, nds⟩) htok rfl)]
    rw [if_pos rfl]
    rw [stExc_bind_ok (tokAt0_eq (s := ⟨ti, toks, 0, delta, ctx, vt, some 1, nds⟩) htok)]
    rfl
  · intro h0 hd hm
    obtain ⟨ti, toks, lvl, delta, ctx, vt, m, nds⟩ := s
    change ¬ (lvl = 0) at h0
    change ¬ (delta = 0) at hd
    unfold parseInitialWhitespace
    rw [stExc_bind_ok (get_eq _)]
    rw [stExc_bind_ok (hasAhead_pos (s := ⟨ti, toks, lvl, delta, ctx, vt, m, nds⟩) htok rfl)]
    rw [if_pos rfl]
    rw [stExc_bind_ok (tokAt0_eq (s := ⟨ti, toks, lvl, delta, ctx, vt, some 1, nds⟩) htok)]
    rw [stExc_bind_ok (get_eq _)]
    rw [if_neg h0]
    rw [stExc_bind_ok (jsAssert_true ⟨hd, hm⟩ _ _)]
    rfl
  · intro h0 hno
    obtain ⟨ti, toks, lvl, delta, ctx, vt, m, nds⟩ := s
    change ¬ (lvl = 0) at h0
    unfold parseInitialWhitespace
    rw [stExc_bind_ok (get_eq _)]
    rw [stExc_bind_ok (hasAhead_pos (s := ⟨ti, toks, lvl, delta, ctx, vt, m, nds⟩) htok rfl)]
    rw [if_pos rfl]
    rw [stExc_bind_ok (tokAt0_eq (s := ⟨ti, toks, lvl, delta, ctx, vt, some 1, nds⟩) htok)]
    rw [stExc_bind_ok (get_eq _)]
    rw [if_neg h0]
    rw [stExc_bind_err (jsAssert_false hno _ _)]

/-- The amended C1 behavior at concrete states: a 2-space run at level 0
establishes delta 2, and a 3-space run at level 1 with delta 2 aborts with
the indentation error. -/
theorem claim_C1_amended_witness :
    (parseInitialWhitespace (initPState [⟨.Spaces, "  "⟩]) =
      .ok ((0, 1, 0), { initPState [⟨.Spaces, "  "⟩] with
        matched := some 1, indentDelta := 2, tokenIndex := 1, indentLevel := 1 })) ∧
    (parseInitialWhitespace
        { initPState [⟨.Spaces, "   "⟩] with indentLevel := 1, indentDelta := 2 } =
      .error "Improper indentation: Expected a multiple of 2 space(s).") :=
  ⟨(claim_C1_amended (initPState [⟨.Spaces, "  "⟩]) "  " rfl).1 rfl,
   (claim_C1_amended
      { initPState [⟨.Spaces, "   "⟩] with indentLevel := 1, indentDelta := 2 }
      "   " rfl).2.2 (by decide) (by decide)⟩

/-! ### C3: the type-name registry is the seeded builtins, never extended -/

/-- C3 counterexample: after a STRUCTURE Foo construct has been parsed, the
name Foo followed by an open parenthesis still parses as a MethodCall node,
not a Declaration — the registry is never extended by STRUCTURE names. -/
theorem claim_C3_counterexample :
    (tokenizeStr "STRUCTURE Foo:\n    PASS\nFoo(x)").bind makeTree =
      .ok [.structureNode "Foo" [.passNode],
           .methodCall ⟨.Word, "Foo"⟩ [⟨.Word, "x"⟩]] := rfl

/-- C3 (amended): with the registry at its seeded value, a Word `wr` followed
by `(` produces a Declaration node when `wr` is one of the built-in type
names Int, Byte, Array and a MethodCall node otherwise; the registry holds
exactly the built-ins, and no parser step (parseStructure included) ever
writes it. -/
theorem claim_C3_amended (wr xr : String) :
    ((parseHeadExpression 3 (initPState
        [⟨.Word, wr⟩, ⟨.OpenParen, "("⟩, ⟨.Word, xr⟩, ⟨.CloseParen, ")"⟩])).map
      fun p => (p.1, p.2.nodes, p.2.typeContext)) =
      .ok (true,
        [if wr = "Int" ∨ wr = "Byte" ∨ wr = "Array"
          then TreeNode.declaration wr [⟨.Word, xr⟩] false
          else TreeNode.methodCall ⟨.Word, wr⟩ [⟨.Word, xr⟩]],
        initTypeContext) ∧
    (∀ w : String, alookup w initTypeContext = some WordType.typeWord ↔
        (w = "Int" ∨ w = "Byte" ∨ w = "Array")) ∧
    (∀ (ext : Bool) (fuel minLevel : Nat) (u : PState)
        (r : List TreeNode × PState),
      parse ext fuel minLevel u = .ok r → r.2.typeContext = u.typeContext) := by
  refine ⟨?_, ?_, ?_⟩
  · by_cases h1 : wr = "Int"
    · subst h1
      rw [if_pos (Or.inl rfl)]
      rfl
    · by_cases h2 : wr = "Byte"
      · subst h2
        rw [if_pos (Or.inr (Or.inl rfl))]
        rfl
      · by_cases h3 : wr = "Array"
        · subst h3
          rw [if_pos (Or.inr (Or.inr rfl))]
          rfl
        · rw [if_neg (by simp [h1, h2, h3])]
          have hlk : alookup wr initTypeContext = none := by
            simp only [initTypeContext, alookup]
            rw [if_neg (fun e => h1 e.symm), if_neg (fun e => h2 e.symm),
              if_neg (fun e => h3 e.symm)]
          unfold parseHeadExpression
          rw [stExc_bind_ok (show hasSequenceAhead [.Word, .OpenParen] true
            (initPState [⟨.Word, wr⟩, ⟨.OpenParen, "("⟩, ⟨.Word, xr⟩, ⟨.CloseParen, ")"⟩]) =
            .ok (true, { initPState [⟨.Word, wr⟩, ⟨.OpenParen, "("⟩, ⟨.Word, xr⟩, ⟨.CloseParen, ")"⟩] with
              matched := some 2 }) from rfl)]
          rw [if_pos rfl]
          dsimp only [initPState]
          rw [stExc_bind_ok (show tokAt 0
            ⟨0, [⟨.Word, wr⟩, ⟨.OpenParen, "("⟩, ⟨.Word, xr⟩, ⟨.CloseParen, ")"⟩],
             0, 0, initTypeContext, [], some 2, []⟩ =
            .ok (⟨.Word, wr⟩,
              ⟨0, [⟨.Word, wr⟩, ⟨.OpenParen, "("⟩, ⟨.Word, xr⟩, ⟨.CloseParen, ")"⟩],
               0, 0, initTypeContext, [], some 2, []⟩) from rfl)]
          rw [stExc_bind_ok (get_eq _)]
          dsimp only
          rw [hlk]
          rfl
  · intro w
    simp only [initTypeContext, alookup]
    by_cases h1 : "Int" = w
    · subst h1
      simp
    · rw [if_neg h1]
      by_cases h2 : "Byte" = w
      · subst h2
        simp
      · rw [if_neg h2]
        by_cases h3 : "Array" = w
        · subst h3
          simp
        · rw [if_neg h3]
          simp [Ne.symm h1, Ne.symm h2, Ne.symm h3]
  · intro ext fuel minLevel u r h
    obtain ⟨a, v⟩ := r
    exact parse_typeContext_const ext fuel minLevel u a v h

/-- The amended C3 dichotomy at a concrete non-builtin name: Foo followed by
a parenthesised argument parses as a MethodCall. -/
theorem claim_C3_amended_witness :
    ((parseHeadExpression 3 (initPState
        [⟨.Word, "Foo"⟩, ⟨.OpenParen, "("⟩, ⟨.Word, "x"⟩, ⟨.CloseParen, ")"⟩])).map
      fun p => (p.1, p.2.nodes, p.2.typeContext)) =
      .ok (true, [TreeNode.methodCall ⟨.Word, "Foo"⟩ [⟨.Word, "x"⟩]],
        initTypeContext) := by
  have h := (claim_C3_amended "Foo" "x").1
  rw [if_neg (by decide)] at h
  exact h

/-! ### C4 and C7: the two pipeline scenarios of the spec -/

set_option maxRecDepth 100000

/-- The full generator state for `METHOD add(Int a, Int b):` + indented
`RETURN a+b` (RETURN needs the spec-modelled dispatch, hence
`compileStateExt true`). -/
theorem methodAddRun :
    compileStateExt true "METHOD add(Int a, Int b):\n    RETURN a+b" = .ok
      { typeInfo := [], defineInfo := [],
        codeLines := ["void add (int a, int b) \x7b", "    return a+b;", "\x7d"],
        includeLines := ["#include <stdint.h>", "#define true (1)", "#define false (0)"],
        headerLines := ["void add(int a, int b);"],
        emitLevel := 0, indentCount := 4,
        temporaries := List.replicate 10 false, typeMap := CTypeMap } := by
  have h1 : tokenizeStr "METHOD add(Int a, Int b):\n    RETURN a+b" = .ok
      [⟨.Keyword, "METHOD"⟩, ⟨.Spaces, " "⟩, ⟨.Word, "add"⟩, ⟨.OpenParen, "("⟩,
       ⟨.Word, "Int"⟩, ⟨.Spaces, " "⟩, ⟨.Word, "a"⟩, ⟨.Comma, ","⟩, ⟨.Spaces, " "⟩,
       ⟨.Word, "Int"⟩, ⟨.Spaces, " "⟩, ⟨.Word, "b"⟩, ⟨.CloseParen, ")"⟩,
       ⟨.Colon, ":"⟩, ⟨.LineBreak, "\n"⟩, ⟨.Spaces, "    "⟩, ⟨.Keyword, "RETURN"⟩,
       ⟨.Spaces, " "⟩, ⟨.Word, "a"⟩, ⟨.Operator, "+"⟩, ⟨.Word, "b"⟩] := rfl
  have h2 : makeTreeExt true
      [⟨.Keyword, "METHOD"⟩, ⟨.Spaces, " "⟩, ⟨.Word, "add"⟩, ⟨.OpenParen, "("⟩,
       ⟨.Word, "Int"⟩, ⟨.Spaces, " "⟩, ⟨.Word, "a"⟩, ⟨.Comma, ","⟩, ⟨.Spaces, " "⟩,
       ⟨.Word, "Int"⟩, ⟨.Spaces, " "⟩, ⟨.Word, "b"⟩, ⟨.CloseParen, ")"⟩,
       ⟨.Colon, ":"⟩, ⟨.LineBreak, "\n"⟩, ⟨.Spaces, "    "⟩, ⟨.Keyword, "RETURN"⟩,
       ⟨.Spaces, " "⟩, ⟨.Word, "a"⟩, ⟨.Operator, "+"⟩, ⟨.Word, "b"⟩] =
      .ok [.methodDeclaration "add"
        [⟨.Word, "Int"⟩, ⟨.Word, "a"⟩, ⟨.Word, "Int"⟩, ⟨.Word, "b"⟩] none
        [.returnNode [⟨.Spaces, " "⟩, ⟨.Word, "a"⟩, ⟨.Operator, "+"⟩, ⟨.Word, "b"⟩]]] := rfl
  exact compileStateExt_steps h1 h2 rfl

/-- C4 counterexample: in the generated body the return statement is spelled
`return a+b;` — getCExpression joins the expression's token texts with an
empty separator — so the claimed `return a + b;` line appears nowhere in the
code stream (shown trimmed of leading indentation). -/
theorem claim_C4_counterexample :
    (compileStateExt true "METHOD add(Int a, Int b):\n    RETURN a+b").map
      (fun st => st.codeLines.map jsTrim) =
      .ok ["void add (int a, int b) \x7b", "return a+b;", "\x7d"] ∧
    "return a + b;" ∉ ["void add (int a, int b) \x7b", "return a+b;", "\x7d"] := by
  refine ⟨?_, by decide⟩
  rw [methodAddRun]
  rfl

/-- C4 (amended): the pipeline (with the RETURN dispatch the spec describes)
succeeds, the header stream declares `void add(int a, int b);`, and the code
stream defines the function with the statement `return a+b;` (no spaces
around the operator). -/
theorem claim_C4_amended :
    (compileStateExt true "METHOD add(Int a, Int b):\n    RETURN a+b").map
      (fun st => (st.headerLines, st.codeLines)) =
      .ok (["void add(int a, int b);"],
        ["void add (int a, int b) \x7b", "    return a+b;", "\x7d"]) := by
  rw [methodAddRun]
  rfl

/-- The full generator state for `Int(x)` + line break + `x = 5`. -/
theorem intDeclRun :
    compileStateExt false "Int(x)\nx = 5" = .ok
      { typeInfo := [("x", ("int", false))], defineInfo := [],
        codeLines := ["int x;", "#define x ((int) 5)"],
        includeLines := ["#include <stdint.h>", "#define true (1)", "#define false (0)"],
        headerLines := [],
        emitLevel := 0, indentCount := 4,
        temporaries := List.replicate 10 false, typeMap := CTypeMap } := by
  have h1 : tokenizeStr "Int(x)\nx = 5" = .ok
      [⟨.Word, "Int"⟩, ⟨.OpenParen, "("⟩, ⟨.Word, "x"⟩, ⟨.CloseParen, ")"⟩,
       ⟨.LineBreak, "\n"⟩, ⟨.Word, "x"⟩, ⟨.Spaces, " "⟩, ⟨.SetEquals, "="⟩,
       ⟨.Spaces, " "⟩, ⟨.Number, "5"⟩] := rfl
  have h2 : makeTreeExt false
      [⟨.Word, "Int"⟩, ⟨.OpenParen, "("⟩, ⟨.Word, "x"⟩, ⟨.CloseParen, ")"⟩,
       ⟨.LineBreak, "\n"⟩, ⟨.Word, "x"⟩, ⟨.Spaces, " "⟩, ⟨.SetEquals, "="⟩,
       ⟨.Spaces, " "⟩, ⟨.Number, "5"⟩] =
      .ok [.declaration "Int" [⟨.Word, "x"⟩] false,
           .assignment "x" [⟨.Number, "5"⟩]] := rfl
  exact compileStateExt_steps h1 h2 rfl

/-- C7 counterexample: for `Int(x)` + `x = 5` the header stream of the
generated output is empty — in particular it does not contain the line
`#define x ((int) 5)` (the immutable-assignment macro is emitted elsewhere). -/
theorem claim_C7_counterexample :
    (compileStateExt false "Int(x)\nx = 5").map (fun st => st.headerLines) =
      .ok [] ∧
    "#define x ((int) 5)" ∉ ([] : List String) := by
  refine ⟨?_, by simp⟩
  rw [intDeclRun]
  rfl

/-- C7 (amended): the environment records `x : int`, immutable, and the line
`#define x ((int) 5)` is generated — but into the code (body) stream, the
header stream staying empty, as the full output string shows (two
consecutive blank separator lines around the empty header section). -/
theorem claim_C7_amended :
    (compileStateExt false "Int(x)\nx = 5").map
      (fun st => (st.typeInfo, st.headerLines, st.codeLines)) =
      .ok ([("x", ("int", false))], [],
        ["int x;", "#define x ((int) 5)"]) ∧
    compile "Int(x)\nx = 5" =
      .ok "#include <stdint.h>\n#define true (1)\n#define false (0)\n\n\nint x;\n#define x ((int) 5)" := by
  constructor
  · rw [intDeclRun]
    rfl
  · exact compileExt_steps rfl rfl rfl

/-! ### C10: generation never writes the node heap -/

theorem heapPres_liftSkel (m : SM α) : StatePres GState.heap (liftSkel m) := by
  intro g a g' h
  unfold liftSkel at h
  cases hm : m g.skel with
  | error e => rw [hm] at h; simp [Except.map] at h
  | ok p =>
    rw [hm] at h
    simp only [Except.map] at h
    cases h
    rfl

theorem heapPres_readNode (i : Nat) : StatePres GState.heap (readNode i) := by
  intro g a g' h
  unfold readNode at h
  cases hg : g.heap[i]? with
  | none => rw [hg] at h; cases h
  | some nd => rw [hg] at h; cases h; rfl

/-- No branch of the heap-walking generator writes a node record: the heap
component of the state is preserved by every `hSkeletonizeNode` /
`hSkeletonizeList` run. -/
theorem heapPres_hMutual : ∀ fuel : Nat,
    (∀ i level, StatePres GState.heap (hSkeletonizeNode fuel i level)) ∧
    (∀ ids level, StatePres GState.heap (hSkeletonizeList fuel ids level)) := by
  intro fuel
  induction fuel with
  | zero =>
    exact ⟨fun i level => statePres_throw _ _, fun ids level => statePres_throw _ _⟩
  | succ fuel ih =>
    constructor
    · intro i level
      show StatePres GState.heap (hSkeletonizeNode (fuel + 1) i level)
      unfold hSkeletonizeNode
      refine statePres_bind (heapPres_readNode i) ?_
      intro nd
      cases nd with
      | structureNode name children =>
        refine statePres_bind (heapPres_liftSkel _) (fun _ => ?_)
        refine statePres_bind (heapPres_liftSkel _) (fun _ => ?_)
        cases children.head? with
        | none => exact statePres_throw _ _
        | some cid =>
          exact statePres_bind (heapPres_readNode cid)
            (fun child => heapPres_liftSkel _)
      | methodDeclaration name parameters returnType children =>
        refine statePres_bind (heapPres_liftSkel _) (fun _ => ?_)
        exact statePres_bind (ih.2 children (level + 1))
          (fun _ => heapPres_liftSkel _)
      | repeatNode condition children =>
        refine statePres_bind (heapPres_liftSkel _) (fun _ => ?_)
        exact statePres_bind (ih.2 children (level + 1))
          (fun _ => heapPres_liftSkel _)
      | comment text => exact heapPres_liftSkel _
      | declaration dtype declared mutableFlag => exact heapPres_liftSkel _
      | assignment varName expression => exact heapPres_liftSkel _
      | methodCall method parameters => exact heapPres_liftSkel _
      | passNode => exact heapPres_liftSkel _
      | defaultDefine name defaultValue => exact heapPres_liftSkel _
      | defineNode name value => exact heapPres_liftSkel _
      | setMode name modes => exact heapPres_liftSkel _
      | returnNode expression => exact heapPres_liftSkel _
    · intro ids level
      cases ids with
      | nil => exact statePres_pure _ _
      | cons i rest =>
        exact statePres_bind (ih.1 i level) (fun _ => ih.2 rest level)

/-- C10: code generation never mutates its input tree.  In the heap-explicit
rendering of part_002 — where every node is a record in an explicit store and
the generator state carries that store — a successful `hSkeletonize` returns
the store unchanged, and running it again on the returned store yields the
identical output. -/
theorem claim_C10_generator_frame (fuel : Nat) (heap : Heap) (roots : List Nat)
    (out : String) (heap' : Heap)
    (h : hSkeletonize fuel heap roots = .ok (out, heap')) :
    heap' = heap ∧ hSkeletonize fuel heap' roots = .ok (out, heap') := by
  unfold hSkeletonize at h ⊢
  cases hr : hSkeletonizeList fuel roots 0 ⟨initCSkel, heap⟩ with
  | error e => rw [hr] at h; simp [Except.map] at h
  | ok p =>
    rw [hr] at h
    simp only [Except.map] at h
    cases h
    have h2 : p.2.heap = heap := (heapPres_hMutual fuel).2 roots 0 ⟨initCSkel, heap⟩ p.1 p.2 hr
    refine ⟨h2, ?_⟩
    rw [h2, hr]
    simp only [Except.map]
    rw [h2]

/-- The C10 frame fact at a concrete heap: one Pass node, skeletonized twice
from the same store, with the store returned unchanged. -/
theorem claim_C10_generator_frame_witness :
    hSkeletonize 2 [NodeData.passNode] [0] =
      .ok ("#include <stdint.h>\n#define true (1)\n#define false (0)\n\n\n//TODO:",
        [NodeData.passNode]) ∧
    ([NodeData.passNode] : Heap) = [NodeData.passNode] ∧
    hSkeletonize 2 [NodeData.passNode] [0] =
      .ok ("#include <stdint.h>\n#define true (1)\n#define false (0)\n\n\n//TODO:",
        [NodeData.passNode]) :=
  ⟨rfl, claim_C10_generator_frame 2 [NodeData.passNode] [0] _ _ rfl⟩

end CIR
